import Mathlib

/-!
Verification of the procedural level-generation pipeline of a Rust roguelike.

The Rust sources embedded here:
  * src/map_builders/cellular_automata.rs  (random fill + cellular-automata smoothing)
  * src/map_builders/room_draw.rs          (room rasterizer)
  * src/map_builders/prefab_builder.rs     (prefab/template import)
  * src/map_builders/waveform_collapse/mod.rs (Wave Function Collapse build loop)

The map/rect/context types and a few helpers (map.rs, rect.rs,
map_builders/mod.rs, the WFC solver internals) are not among the sources;
those definitions are modelled from the specification document and are
marked as such in their doc comments.
-/

namespace Rogue

/-- Tile type of the map grid, from the TileType enum: Wall, Floor, DownStairs. -/
inductive TileType where
  | Wall : TileType
  | Floor : TileType
  | DownStairs : TileType
deriving DecidableEq, Repr

/-- A map coordinate pair, from the Position component (i32 fields). -/
structure Position where
  x : Int
  y : Int
deriving DecidableEq, Repr

/-- Modelled from the spec: `map.rs` is not among the sources.  The Map owns
width, height, depth and a row-major tile vector of length width*height with
index `y*width+x`.  The fog-of-war bit arrays (revealed/visible) are not
relevant to any claim and are omitted. -/
structure Map where
  width : Int
  height : Int
  depth : Int
  tiles : List TileType
deriving DecidableEq, Repr

/-- `Map::xy_idx`: the row-major coordinate-to-index mapping `y*width + x`
(computed in the integers; the Rust cast to usize is applied at use sites). -/
def Map.xy_idx (m : Map) (x y : Int) : Int :=
  y * m.width + x

/-- Modelled from the spec: `Map::new` returns an all-Wall map of the given
size. -/
def Map.mkNew (depth width height : Int) : Map :=
  { width := width, height := height, depth := depth,
    tiles := List.replicate (width * height).toNat TileType.Wall }

/-- Read the tile at coordinates `(x, y)` (default Wall when out of range;
every read performed by the claims is in range). -/
def Map.getTile (m : Map) (x y : Int) : TileType :=
  m.tiles.getD (m.xy_idx x y).toNat TileType.Wall

/-- Write the tile at a (usize) index. -/
def Map.setIdx (m : Map) (idx : Nat) (t : TileType) : Map :=
  { m with tiles := m.tiles.set idx t }

/-- A map is well-formed when its tile vector has length `width*height`. -/
def Map.wf (m : Map) : Prop :=
  m.tiles.length = (m.width * m.height).toNat

/-- The inclusive integer range `lo..=hi` as a list (Rust `for v in lo..=hi`). -/
def intRange (lo hi : Int) : List Int :=
  (List.range (hi + 1 - lo).toNat).map (fun (i : Nat) => lo + (i : Int))

theorem mem_intRange {lo hi x : Int} :
    x ∈ intRange lo hi ↔ lo ≤ x ∧ x ≤ hi := by
  unfold intRange
  simp only [List.mem_map, List.mem_range]
  constructor
  · rintro ⟨i, hi', rfl⟩
    omega
  · rintro ⟨h1, h2⟩
    exact ⟨(x - lo).toNat, by omega, by omega⟩

theorem length_intRange (lo hi : Int) :
    (intRange lo hi).length = (hi + 1 - lo).toNat := by
  unfold intRange
  rw [List.length_map, List.length_range]

theorem getElem_intRange (lo hi : Int) (j : Nat)
    (hj : j < (intRange lo hi).length) :
    (intRange lo hi)[j] = lo + j := by
  unfold intRange at hj ⊢
  rw [List.length_map, List.length_range] at hj
  rw [List.getElem_map, List.getElem_range]

-- Basic lemmas about reading a list after a point update.

theorem getD_set_ne {α : Type} (l : List α) (i n : Nat) (a d : α) (h : i ≠ n) :
    (l.set i a).getD n d = l.getD n d := by
  simp [List.getD_eq_getElem?_getD, List.getElem?_set_ne h]

theorem getD_set_eq {α : Type} (l : List α) (i : Nat) (a d : α)
    (h : i < l.length) :
    (l.set i a).getD i d = a := by
  simp [List.getD_eq_getElem?_getD, List.getElem?_set_self, h]

theorem getTile_mkNew (d w h x y : Int) :
    (Map.mkNew d w h).getTile x y = TileType.Wall := by
  unfold Map.mkNew Map.getTile
  rw [List.getD_eq_getElem?_getD, List.getElem?_replicate]
  split <;> rfl

theorem wf_mkNew (d w h : Int) : (Map.mkNew d w h).wf := by
  simp [Map.mkNew, Map.wf]

-- Row-major index arithmetic: the mapping (x, y) ↦ (y*w+x).toNat is
-- injective and bounded on in-bounds coordinates.

theorem xy_idx_nonneg {w x y : Int} (hx : 0 ≤ x) (hy : 0 ≤ y) (hw : 0 ≤ w) :
    0 ≤ y * w + x :=
  add_nonneg (mul_nonneg hy hw) hx

theorem xy_idx_lt_area {w h x y : Int} (hx : 0 ≤ x) (hxw : x < w)
    (hy : 0 ≤ y) (hyh : y < h) : (y * w + x).toNat < (w * h).toNat := by
  have hw : 0 < w := lt_of_le_of_lt hx hxw
  have h1 : y * w ≤ (h - 1) * w :=
    mul_le_mul_of_nonneg_right (by omega) (le_of_lt hw)
  have h2 : (h - 1) * w + w = w * h := by ring
  have h3 : y * w + x < w * h := by omega
  have h4 : 0 ≤ y * w + x := xy_idx_nonneg hx hy (le_of_lt hw)
  omega

theorem xy_idx_inj {w x1 y1 x2 y2 : Int} (hx1 : 0 ≤ x1) (hx1w : x1 < w)
    (hx2 : 0 ≤ x2) (hx2w : x2 < w) (hy1 : 0 ≤ y1) (hy2 : 0 ≤ y2)
    (heq : (y1 * w + x1).toNat = (y2 * w + x2).toNat) : x1 = x2 ∧ y1 = y2 := by
  have hw : 0 < w := lt_of_le_of_lt hx1 hx1w
  have h1 : 0 ≤ y1 * w + x1 := xy_idx_nonneg hx1 hy1 (le_of_lt hw)
  have h2 : 0 ≤ y2 * w + x2 := xy_idx_nonneg hx2 hy2 (le_of_lt hw)
  have heqZ : y1 * w + x1 = y2 * w + x2 := by omega
  have hm1 : (x1 + y1 * w) % w = x1 % w := Int.add_mul_emod_self
  have hm2 : (x2 + y2 * w) % w = x2 % w := Int.add_mul_emod_self
  have hx1m : x1 % w = x1 := Int.emod_eq_of_lt hx1 hx1w
  have hx2m : x2 % w = x2 := Int.emod_eq_of_lt hx2 hx2w
  have hxx : x1 = x2 := by
    have hsum : x1 + y1 * w = x2 + y2 * w := by omega
    have : (x1 + y1 * w) % w = (x2 + y2 * w) % w := by rw [hsum]
    rw [hm1, hm2, hx1m, hx2m] at this
    exact this
  refine ⟨hxx, ?_⟩
  have : y1 * w = y2 * w := by omega
  exact mul_right_cancel₀ (by omega) this

/-! ## Cellular automata builder (src/map_builders/cellular_automata.rs) -/

/-- The non-border coordinates traversed by `CellularAutomataBuilder::build`:
`for y in 1..height-1 { for x in 1..width-1 { ... } }`, row-major order. -/
def interiorCoords (w h : Int) : List (Int × Int) :=
  (intRange 1 (h - 2)).flatMap (fun y => (intRange 1 (w - 2)).map (fun x => (x, y)))

/-- The random-fill loop of `CellularAutomataBuilder::build`: one
`roll_dice(1,100)` outcome per visited tile (the outcomes are threaded as the
stream `rolls`, consumed in traversal order), Floor when the roll is > 55,
Wall otherwise. -/
def caFillGo (w : Int) (rolls : Nat → Nat) :
    List (Int × Int) → Nat → List TileType → List TileType
  | [], _, ts => ts
  | (x, y) :: cs, k, ts =>
      caFillGo w rolls cs (k + 1)
        (ts.set (y * w + x).toNat
          (if 55 < rolls k then TileType.Floor else TileType.Wall))

/-- The random-fill stage applied to the builder map. -/
def caFill (rolls : Nat → Nat) (m : Map) : Map :=
  { m with tiles := caFillGo m.width rolls (interiorCoords m.width m.height) 0 m.tiles }

/-- The neighbour index offsets used by the smoothing loop, in source order:
west, east, north, south, northwest, northeast, southwest, southeast. -/
def neighbourOffsets (w : Int) : List Int :=
  [-1, 1, -w, w, -w - 1, -w + 1, w - 1, w + 1]

/-- Count of Wall tiles among the eight neighbour indices of `idx`, exactly as
the source reads them from the frozen tile buffer. -/
def countWallNeighbours (w : Int) (tiles : List TileType) (idx : Int) : Nat :=
  (neighbourOffsets w).countP
    (fun o => tiles.getD (idx + o).toNat TileType.Wall = TileType.Wall)

/-- Generic write loop: write `f x y` at row-major index `y*w+x` for each
listed coordinate, in order. -/
def writeCells (w : Int) (f : Int → Int → TileType) :
    List (Int × Int) → List TileType → List TileType
  | [], ts => ts
  | (x, y) :: cs, ts => writeCells w f cs (ts.set (y * w + x).toNat (f x y))

/-- The smoothing rule: a tile becomes Wall when its Wall-neighbour count in
the frozen previous grid is > 4 or == 0, and Floor otherwise. -/
def caSmoothRule (m : Map) (x y : Int) : TileType :=
  if 4 < countWallNeighbours m.width m.tiles (m.xy_idx x y)
      ∨ countWallNeighbours m.width m.tiles (m.xy_idx x y) = 0
  then TileType.Wall else TileType.Floor

/-- One smoothing pass of `CellularAutomataBuilder::build`: neighbour counts
are read from the frozen previous grid `m.tiles` while the new values are
written into a cloned buffer (`newtiles`), then the buffer replaces the grid. -/
def caSmoothPass (m : Map) : Map :=
  { m with tiles := writeCells m.width (caSmoothRule m) (interiorCoords m.width m.height) m.tiles }

/-- The random-fill stage followed by the 15 smoothing passes, the part of
`CellularAutomataBuilder::build` the claims concern. -/
def caFillSmooth (rolls : Nat → Nat) (m : Map) : Map :=
  caSmoothPass^[15] (caFill rolls m)

-- Machinery: reading a tile buffer after the write loops.

theorem length_writeCells (w : Int) (f : Int → Int → TileType) :
    ∀ (cs : List (Int × Int)) (ts : List TileType),
      (writeCells w f cs ts).length = ts.length
  | [], _ => rfl
  | (x, y) :: cs, ts => by
      rw [writeCells, length_writeCells w f cs, List.length_set]

theorem length_caFillGo (w : Int) (rolls : Nat → Nat) :
    ∀ (cs : List (Int × Int)) (k : Nat) (ts : List TileType),
      (caFillGo w rolls cs k ts).length = ts.length
  | [], _, _ => rfl
  | (x, y) :: cs, k, ts => by
      rw [caFillGo, length_caFillGo w rolls cs, List.length_set]

theorem getD_writeCells_not_mem (w : Int) (f : Int → Int → TileType)
    (n : Nat) (d : TileType) :
    ∀ (cs : List (Int × Int)) (ts : List TileType),
      (∀ p ∈ cs, (p.2 * w + p.1).toNat ≠ n) →
      (writeCells w f cs ts).getD n d = ts.getD n d
  | [], _, _ => rfl
  | (x, y) :: cs, ts, hne => by
      rw [writeCells, getD_writeCells_not_mem w f n d cs _
        (fun p hp => hne p (List.mem_cons_of_mem _ hp))]
      exact getD_set_ne _ _ _ _ _ (hne (x, y) (List.mem_cons_self _ _))

theorem getD_caFillGo_not_mem (w : Int) (rolls : Nat → Nat)
    (n : Nat) (d : TileType) :
    ∀ (cs : List (Int × Int)) (k : Nat) (ts : List TileType),
      (∀ p ∈ cs, (p.2 * w + p.1).toNat ≠ n) →
      (caFillGo w rolls cs k ts).getD n d = ts.getD n d
  | [], _, _, _ => rfl
  | (x, y) :: cs, k, ts, hne => by
      rw [caFillGo, getD_caFillGo_not_mem w rolls n d cs _ _
        (fun p hp => hne p (List.mem_cons_of_mem _ hp))]
      exact getD_set_ne _ _ _ _ _ (hne (x, y) (List.mem_cons_self _ _))

theorem getD_writeCells_mem (w : Int) (f : Int → Int → TileType) (d : TileType) :
    ∀ (cs : List (Int × Int)) (ts : List TileType) (x y : Int),
      (List.map (fun p => (p.2 * w + p.1).toNat) cs).Nodup →
      (x, y) ∈ cs → (y * w + x).toNat < ts.length →
      (writeCells w f cs ts).getD (y * w + x).toNat d = f x y := by
  intro cs
  induction cs with
  | nil => intro ts x y _ hmem _; cases hmem
  | cons p cs ih =>
      intro ts x y hnd hmem hlt
      obtain ⟨a, b⟩ := p
      rw [List.map_cons, List.nodup_cons] at hnd
      obtain ⟨hnotin, hnd2⟩ := hnd
      rcases List.mem_cons.mp hmem with heq | hmem2
      · rw [Prod.mk.injEq] at heq
        obtain ⟨rfl, rfl⟩ := heq
        rw [writeCells, getD_writeCells_not_mem]
        · exact getD_set_eq _ _ _ _ hlt
        · intro q hq hqe
          exact hnotin (hqe ▸ List.mem_map_of_mem _ hq)
      · have hne : (y * w + x).toNat ≠ (b * w + a).toNat := by
          intro he
          exact hnotin (he ▸ List.mem_map_of_mem _ hmem2)
        rw [writeCells]
        exact ih _ x y hnd2 hmem2 (by rw [List.length_set]; exact hlt)

theorem getD_caFillGo_getElem (w : Int) (rolls : Nat → Nat) (d : TileType) :
    ∀ (cs : List (Int × Int)) (ts : List TileType) (k j : Nat)
      (hj : j < cs.length),
      (List.map (fun p => (p.2 * w + p.1).toNat) cs).Nodup →
      (∀ p ∈ cs, (p.2 * w + p.1).toNat < ts.length) →
      (caFillGo w rolls cs k ts).getD ((cs[j]).2 * w + (cs[j]).1).toNat d
        = (if 55 < rolls (k + j) then TileType.Floor else TileType.Wall) := by
  intro cs
  induction cs with
  | nil => intro ts k j hj; exact absurd hj (by simp)
  | cons p cs ih =>
      intro ts k j hj hnd hall
      obtain ⟨a, b⟩ := p
      rw [List.map_cons, List.nodup_cons] at hnd
      obtain ⟨hnotin, hnd2⟩ := hnd
      cases j with
      | zero =>
          rw [List.getElem_cons_zero, caFillGo, getD_caFillGo_not_mem]
          · rw [Nat.add_zero]
            exact getD_set_eq _ _ _ _ (hall (a, b) (List.mem_cons_self _ _))
          · intro q hq hqe
            exact hnotin (hqe ▸ List.mem_map_of_mem _ hq)
      | succ j =>
          rw [List.getElem_cons_succ, caFillGo]
          have hlen : ∀ q ∈ cs,
              (q.2 * w + q.1).toNat
                < (ts.set (b * w + a).toNat
                    (if 55 < rolls k then TileType.Floor else TileType.Wall)).length := by
            intro q hq
            rw [List.length_set]
            exact hall q (List.mem_cons_of_mem _ hq)
          have := ih _ (k + 1) j (by simpa using hj) hnd2 hlen
          rw [this]
          have harith : k + 1 + j = k + (j + 1) := by omega
          rw [harith]

theorem mem_interiorCoords {w h : Int} {p : Int × Int} :
    p ∈ interiorCoords w h ↔ 1 ≤ p.1 ∧ p.1 ≤ w - 2 ∧ 1 ≤ p.2 ∧ p.2 ≤ h - 2 := by
  unfold interiorCoords
  simp only [List.mem_flatMap, List.mem_map, mem_intRange]
  constructor
  · rintro ⟨y, ⟨hy1, hy2⟩, x, ⟨hx1, hx2⟩, rfl⟩
    exact ⟨hx1, hx2, hy1, hy2⟩
  · obtain ⟨x, y⟩ := p
    rintro ⟨hx1, hx2, hy1, hy2⟩
    exact ⟨y, ⟨hy1, hy2⟩, x, ⟨hx1, hx2⟩, rfl⟩

theorem flatMap_range_rows {α : Type} (nw : Nat) (f : Nat → Nat → α) :
    ∀ nh, (List.range nh).flatMap (fun r => (List.range nw).map (fun c => f r c))
      = (List.range (nh * nw)).map (fun j => f (j / nw) (j % nw))
  | 0 => by simp
  | nh + 1 => by
      rw [List.range_succ, List.flatMap_append, flatMap_range_rows nw f nh,
        Nat.succ_mul, List.range_add, List.map_append, List.map_map]
      congr 1
      · simp only [List.flatMap_cons, List.flatMap_nil, List.append_nil]
        apply List.map_congr_left
        intro c hc
        rw [List.mem_range] at hc
        have hnw : 0 < nw := by omega
        simp only [Function.comp_apply]
        have hmod : (nh * nw + c) % nw = c := by
          rw [Nat.mul_comm nh nw, Nat.mul_add_mod, Nat.mod_eq_of_lt hc]
        have hdiv : (nh * nw + c) / nw = nh := by
          rw [Nat.mul_comm nh nw, Nat.mul_add_div hnw, Nat.div_eq_of_lt hc,
            Nat.add_zero]
        rw [hmod, hdiv]

theorem intRange_one_eq (t : Int) :
    intRange 1 t = (List.range t.toNat).map (fun (i : Nat) => 1 + (i : Int)) := by
  unfold intRange
  have hh : (t + 1 - 1).toNat = t.toNat := by omega
  rw [hh]

theorem interiorCoords_eq (w h : Int) :
    interiorCoords w h
      = (List.range ((h - 2).toNat * (w - 2).toNat)).map
          (fun j => ((1 : Int) + ((j % (w - 2).toNat : Nat) : Int),
                     (1 : Int) + ((j / (w - 2).toNat : Nat) : Int))) := by
  unfold interiorCoords
  rw [intRange_one_eq (h - 2), intRange_one_eq (w - 2), List.flatMap_map]
  simp only [List.map_map]
  exact flatMap_range_rows (w - 2).toNat
    (fun r c => ((1 : Int) + (c : Int), (1 : Int) + (r : Int))) (h - 2).toNat

theorem length_interiorCoords (w h : Int) :
    (interiorCoords w h).length = (h - 2).toNat * (w - 2).toNat := by
  rw [interiorCoords_eq, List.length_map, List.length_range]

theorem interiorCoords_idx_nodup (w h : Int) :
    ((interiorCoords w h).map (fun p => (p.2 * w + p.1).toNat)).Nodup := by
  rw [interiorCoords_eq, List.map_map]
  apply (List.nodup_range _).map_on
  intro j1 h1 j2 h2 heq
  rw [List.mem_range] at h1 h2
  simp only [Function.comp_apply] at heq
  have hnwpos : 0 < (w - 2).toNat := by
    rcases Nat.eq_zero_or_pos (w - 2).toNat with h0 | hpos
    · rw [h0, Nat.mul_zero] at h1; omega
    · exact hpos
  have hb1 : j1 % (w - 2).toNat < (w - 2).toNat := Nat.mod_lt _ hnwpos
  have hb2 : j2 % (w - 2).toNat < (w - 2).toNat := Nat.mod_lt _ hnwpos
  have hco := @xy_idx_inj w
    ((1 : Int) + ((j1 % (w - 2).toNat : Nat) : Int))
    ((1 : Int) + ((j1 / (w - 2).toNat : Nat) : Int))
    ((1 : Int) + ((j2 % (w - 2).toNat : Nat) : Int))
    ((1 : Int) + ((j2 / (w - 2).toNat : Nat) : Int))
    (by omega) (by omega) (by omega) (by omega) (by positivity) (by positivity) heq
  obtain ⟨hx, hy⟩ := hco
  have hmeq : j1 % (w - 2).toNat = j2 % (w - 2).toNat :=
    Nat.cast_inj.mp (add_left_cancel hx)
  have hdeq : j1 / (w - 2).toNat = j2 / (w - 2).toNat :=
    Nat.cast_inj.mp (add_left_cancel hy)
  have e1 : (w - 2).toNat * (j1 / (w - 2).toNat) + j1 % (w - 2).toNat = j1 :=
    Nat.div_add_mod j1 (w - 2).toNat
  have e2 : (w - 2).toNat * (j2 / (w - 2).toNat) + j2 % (w - 2).toNat = j2 :=
    Nat.div_add_mod j2 (w - 2).toNat
  rw [hmeq, hdeq] at e1
  exact e1.symm.trans e2

theorem interiorCoords_idx_lt {w h : Int} (p : Int × Int)
    (hp : p ∈ interiorCoords w h) : (p.2 * w + p.1).toNat < (w * h).toNat := by
  rw [mem_interiorCoords] at hp
  exact xy_idx_lt_area (by omega) (by omega) (by omega) (by omega)

theorem caFillGo_congr (w : Int) (rolls1 rolls2 : Nat → Nat) :
    ∀ (cs : List (Int × Int)) (k : Nat) (ts : List TileType),
      (∀ i, k ≤ i → i < k + cs.length → rolls1 i = rolls2 i) →
      caFillGo w rolls1 cs k ts = caFillGo w rolls2 cs k ts
  | [], _, _, _ => rfl
  | (x, y) :: cs, k, ts, hag => by
      rw [caFillGo, caFillGo, hag k le_rfl (by simp)]
      exact caFillGo_congr w rolls1 rolls2 cs (k + 1) _
        (fun i h1 h2 => hag i (by omega) (by rw [List.length_cons]; omega))

-- Coordinate-level characterization of the random-fill stage.

theorem caFill_getTile_interior (rolls : Nat → Nat) (m : Map) (hwf : m.wf)
    (x y : Int) (hx1 : 1 ≤ x) (hx2 : x ≤ m.width - 2)
    (hy1 : 1 ≤ y) (hy2 : y ≤ m.height - 2) :
    (caFill rolls m).getTile x y
      = (if 55 < rolls ((y - 1).toNat * (m.width - 2).toNat + (x - 1).toNat)
         then TileType.Floor else TileType.Wall) := by
  have hw3 : 3 ≤ m.width := by omega
  have hh3 : 3 ≤ m.height := by omega
  have hnw : 0 < (m.width - 2).toNat := by omega
  have hxe : (x - 1).toNat < (m.width - 2).toNat := by omega
  have hye : (y - 1).toNat < (m.height - 2).toNat := by omega
  have hjlt : (y - 1).toNat * (m.width - 2).toNat + (x - 1).toNat
      < (m.height - 2).toNat * (m.width - 2).toNat := by
    calc (y - 1).toNat * (m.width - 2).toNat + (x - 1).toNat
        < (y - 1).toNat * (m.width - 2).toNat + (m.width - 2).toNat := by omega
      _ = ((y - 1).toNat + 1) * (m.width - 2).toNat := by ring
      _ ≤ (m.height - 2).toNat * (m.width - 2).toNat :=
          Nat.mul_le_mul_right _ (by omega)
  have hjlen : (y - 1).toNat * (m.width - 2).toNat + (x - 1).toNat
      < (interiorCoords m.width m.height).length := by
    rw [length_interiorCoords]; exact hjlt
  have hcs : (interiorCoords m.width m.height)[(y - 1).toNat * (m.width - 2).toNat + (x - 1).toNat] = ((x : Int), (y : Int)) := by
    rw [List.getElem_of_eq (interiorCoords_eq m.width m.height), List.getElem_map,
      List.getElem_range]
    have hmod : ((y - 1).toNat * (m.width - 2).toNat + (x - 1).toNat) % (m.width - 2).toNat
        = (x - 1).toNat := by
      rw [Nat.mul_comm, Nat.mul_add_mod, Nat.mod_eq_of_lt hxe]
    have hdiv : ((y - 1).toNat * (m.width - 2).toNat + (x - 1).toNat) / (m.width - 2).toNat
        = (y - 1).toNat := by
      rw [Nat.mul_comm, Nat.mul_add_div hnw, Nat.div_eq_of_lt hxe, Nat.add_zero]
    rw [hmod, hdiv]
    have ex : (1 : Int) + (((x - 1).toNat : Nat) : Int) = x := by omega
    have ey : (1 : Int) + (((y - 1).toNat : Nat) : Int) = y := by omega
    rw [ex, ey]
  have H := getD_caFillGo_getElem m.width rolls TileType.Wall
      (interiorCoords m.width m.height) m.tiles 0
      ((y - 1).toNat * (m.width - 2).toNat + (x - 1).toNat) hjlen
      (interiorCoords_idx_nodup _ _)
      (fun p hp => by rw [hwf]; exact interiorCoords_idx_lt p hp)
  rw [hcs, Nat.zero_add] at H
  unfold caFill Map.getTile Map.xy_idx
  exact H

theorem caFill_getTile_frame (rolls : Nat → Nat) (m : Map) (x y : Int)
    (hx : 0 ≤ x) (hxw : x < m.width) (hy : 0 ≤ y) (hyh : y < m.height)
    (hni : ¬(1 ≤ x ∧ x ≤ m.width - 2 ∧ 1 ≤ y ∧ y ≤ m.height - 2)) :
    (caFill rolls m).getTile x y = m.getTile x y := by
  unfold caFill Map.getTile Map.xy_idx
  apply getD_caFillGo_not_mem
  intro p hp heq
  have hb := mem_interiorCoords.mp hp
  have hco := @xy_idx_inj m.width p.1 p.2 x y
    (by omega) (by omega) (by omega) (by omega) (by omega) (by omega) heq
  exact hni (by omega)

-- Coordinate-level characterization of one smoothing pass.

theorem caSmoothPass_getTile (m : Map) (hwf : m.wf) (x y : Int)
    (hx : 0 ≤ x) (hxw : x < m.width) (hy : 0 ≤ y) (hyh : y < m.height) :
    (caSmoothPass m).getTile x y
      = if 1 ≤ x ∧ x ≤ m.width - 2 ∧ 1 ≤ y ∧ y ≤ m.height - 2
        then caSmoothRule m x y else m.getTile x y := by
  unfold caSmoothPass Map.getTile Map.xy_idx
  by_cases hint : 1 ≤ x ∧ x ≤ m.width - 2 ∧ 1 ≤ y ∧ y ≤ m.height - 2
  · rw [if_pos hint]
    refine getD_writeCells_mem m.width (caSmoothRule m) TileType.Wall
      (interiorCoords m.width m.height) m.tiles x y
      (interiorCoords_idx_nodup _ _) ?_ ?_
    · rw [mem_interiorCoords]
      exact hint
    · rw [hwf]
      exact xy_idx_lt_area (by omega) (by omega) (by omega) (by omega)
  · rw [if_neg hint]
    apply getD_writeCells_not_mem
    intro p hp heq
    have hb := mem_interiorCoords.mp hp
    have hco := @xy_idx_inj m.width p.1 p.2 x y
      (by omega) (by omega) (by omega) (by omega) (by omega) (by omega) heq
    exact hint (by omega)

-- The stages preserve dimensions and well-formedness.

theorem caFill_width (rolls : Nat → Nat) (m : Map) : (caFill rolls m).width = m.width := rfl

theorem caFill_height (rolls : Nat → Nat) (m : Map) : (caFill rolls m).height = m.height := rfl

theorem caSmoothPass_width (m : Map) : (caSmoothPass m).width = m.width := rfl

theorem caSmoothPass_height (m : Map) : (caSmoothPass m).height = m.height := rfl

theorem wf_caFill (rolls : Nat → Nat) (m : Map) (hwf : m.wf) : (caFill rolls m).wf := by
  show (caFillGo m.width rolls (interiorCoords m.width m.height) 0 m.tiles).length
      = (m.width * m.height).toNat
  rw [length_caFillGo]
  exact hwf

theorem wf_caSmoothPass (m : Map) (hwf : m.wf) : (caSmoothPass m).wf := by
  show (writeCells m.width (caSmoothRule m) (interiorCoords m.width m.height) m.tiles).length
      = (m.width * m.height).toNat
  rw [length_writeCells]
  exact hwf

theorem caSmoothPass_iterate_width (m : Map) (k : Nat) :
    (caSmoothPass^[k] m).width = m.width := by
  induction k generalizing m with
  | zero => rfl
  | succ k ih => rw [Function.iterate_succ_apply, ih, caSmoothPass_width]

theorem caSmoothPass_iterate_height (m : Map) (k : Nat) :
    (caSmoothPass^[k] m).height = m.height := by
  induction k generalizing m with
  | zero => rfl
  | succ k ih => rw [Function.iterate_succ_apply, ih, caSmoothPass_height]

theorem wf_caSmoothPass_iterate (m : Map) (hwf : m.wf) (k : Nat) :
    (caSmoothPass^[k] m).wf := by
  induction k generalizing m with
  | zero => exact hwf
  | succ k ih => rw [Function.iterate_succ_apply]; exact ih _ (wf_caSmoothPass m hwf)

/-- The eight neighbour coordinates of `(x, y)`, listed in the order the
source visits them: west, east, north, south, northwest, northeast,
southwest, southeast. -/
def neighbourCoordsOf (x y : Int) : List (Int × Int) :=
  [(x - 1, y), (x + 1, y), (x, y - 1), (x, y + 1),
   (x - 1, y - 1), (x + 1, y - 1), (x - 1, y + 1), (x + 1, y + 1)]

/-- Count of Wall tiles among the eight coordinate neighbours of `(x, y)`. -/
def wallNeighbourCount (m : Map) (x y : Int) : Nat :=
  (neighbourCoordsOf x y).countP (fun p => m.getTile p.1 p.2 = TileType.Wall)

/-- The index-offset neighbour count computed by the source coincides with
the coordinate-level count of Wall tiles among the eight neighbours. -/
theorem countWallNeighbours_eq (m : Map) (x y : Int) :
    countWallNeighbours m.width m.tiles (m.xy_idx x y) = wallNeighbourCount m x y := by
  unfold countWallNeighbours wallNeighbourCount neighbourOffsets neighbourCoordsOf
    Map.getTile Map.xy_idx
  have e1 : y * m.width + x + -1 = y * m.width + (x - 1) := by ring
  have e2 : y * m.width + x + 1 = y * m.width + (x + 1) := by ring
  have e3 : y * m.width + x + -m.width = (y - 1) * m.width + x := by ring
  have e4 : y * m.width + x + m.width = (y + 1) * m.width + x := by ring
  have e5 : y * m.width + x + (-m.width - 1) = (y - 1) * m.width + (x - 1) := by ring
  have e6 : y * m.width + x + (-m.width + 1) = (y - 1) * m.width + (x + 1) := by ring
  have e7 : y * m.width + x + (m.width - 1) = (y + 1) * m.width + (x - 1) := by ring
  have e8 : y * m.width + x + (m.width + 1) = (y + 1) * m.width + (x + 1) := by ring
  simp only [List.countP_cons, List.countP_nil, e1, e2, e3, e4, e5, e6, e7, e8]

/-- The smoothing rule expressed with the coordinate-level neighbour count. -/
theorem caSmoothRule_eq (m : Map) (x y : Int) :
    caSmoothRule m x y
      = (if 4 < wallNeighbourCount m x y ∨ wallNeighbourCount m x y = 0
         then TileType.Wall else TileType.Floor) := by
  unfold caSmoothRule
  rw [countWallNeighbours_eq]

/-- Claim C4: the cellular automata smoothing stage runs exactly 15 passes;
in each pass every non-border tile is recomputed from the frozen previous
grid — it becomes Wall when the count of Wall tiles among its 8 neighbours
is greater than 4 or equal to 0 and Floor otherwise — while border tiles are
not recomputed. -/
theorem c4_smoothing_passes (rolls : Nat → Nat) (m0 m : Map) (hwf : m.wf)
    (x y : Int) (hx : 0 ≤ x) (hxw : x < m.width) (hy : 0 ≤ y) (hyh : y < m.height) :
    caFillSmooth rolls m0 = caSmoothPass^[15] (caFill rolls m0)
    ∧ (caSmoothPass m).getTile x y
        = (if 1 ≤ x ∧ x ≤ m.width - 2 ∧ 1 ≤ y ∧ y ≤ m.height - 2
           then (if 4 < wallNeighbourCount m x y ∨ wallNeighbourCount m x y = 0
                 then TileType.Wall else TileType.Floor)
           else m.getTile x y) := by
  refine ⟨rfl, ?_⟩
  rw [caSmoothPass_getTile m hwf x y hx hxw hy hyh, caSmoothRule_eq]

/-- Claim C4 witness: a concrete instance of the pass characterization. -/
theorem c4_smoothing_passes_witness :
    (caSmoothPass (Map.mkNew 1 4 4)).getTile 1 1
      = (if 1 ≤ (1 : Int) ∧ (1 : Int) ≤ (Map.mkNew 1 4 4).width - 2
            ∧ 1 ≤ (1 : Int) ∧ (1 : Int) ≤ (Map.mkNew 1 4 4).height - 2
         then (if 4 < wallNeighbourCount (Map.mkNew 1 4 4) 1 1
                  ∨ wallNeighbourCount (Map.mkNew 1 4 4) 1 1 = 0
               then TileType.Wall else TileType.Floor)
         else (Map.mkNew 1 4 4).getTile 1 1) :=
  (c4_smoothing_passes (fun _ => 1) (Map.mkNew 1 4 4) (Map.mkNew 1 4 4)
    (wf_mkNew 1 4 4) 1 1 (by decide) (by decide) (by decide) (by decide)).2

-- With rolls that never exceed 55 every write of the fill loop is Wall, so a
-- buffer that reads Wall everywhere keeps reading Wall everywhere.

theorem caFillGo_allWall (w : Int) (rolls : Nat → Nat)
    (hroll : ∀ i, rolls i ≤ 55) :
    ∀ (cs : List (Int × Int)) (k : Nat) (ts : List TileType),
      (∀ n, ts.getD n TileType.Wall = TileType.Wall) →
      ∀ n, (caFillGo w rolls cs k ts).getD n TileType.Wall = TileType.Wall
  | [], _, _, hts, n => hts n
  | (x, y) :: cs, k, ts, hts, n => by
      rw [caFillGo, if_neg (by have := hroll k; omega)]
      refine caFillGo_allWall w rolls hroll cs (k + 1) _ ?_ n
      intro n2
      by_cases hn : (y * w + x).toNat = n2
      · subst hn
        by_cases hlt : (y * w + x).toNat < ts.length
        · exact getD_set_eq _ _ _ _ hlt
        · rw [List.getD_eq_getElem?_getD, List.getElem?_eq_none (by rw [List.length_set]; omega)]
          rfl
      · rw [getD_set_ne _ _ _ _ _ hn]
        exact hts n2

theorem getD_mkNew_tiles (d w h : Int) (n : Nat) :
    (Map.mkNew d w h).tiles.getD n TileType.Wall = TileType.Wall := by
  unfold Map.mkNew
  rw [List.getD_eq_getElem?_getD, List.getElem?_replicate]
  split <;> rfl

/-- Claim C2 (amended): each non-border tile of the random-fill stage is
seeded by its own dedicated 1d100 roll — Floor exactly when the roll exceeds
55, which happens for 45 of the 100 equally likely outcomes (probability
0.45 Floor / 0.55 Wall); consequently, fixing every roll to 100 produces an
all-Floor interior before any automata pass, and fixing every roll to 1
produces an all-Wall map. -/
theorem c2_random_fill (d w h : Int) (rolls : Nat → Nat) :
    (∀ x y, 1 ≤ x → x ≤ w - 2 → 1 ≤ y → y ≤ h - 2 →
        (caFill rolls (Map.mkNew d w h)).getTile x y
          = (if 55 < rolls ((y - 1).toNat * (w - 2).toNat + (x - 1).toNat)
             then TileType.Floor else TileType.Wall))
    ∧ ((Finset.Icc (1 : Nat) 100).filter (fun r => 55 < r)).card = 45
    ∧ ((∀ k, rolls k = 100) → ∀ x y, 1 ≤ x → x ≤ w - 2 → 1 ≤ y → y ≤ h - 2 →
        (caFill rolls (Map.mkNew d w h)).getTile x y = TileType.Floor)
    ∧ ((∀ k, rolls k = 1) → ∀ x y,
        (caFill rolls (Map.mkNew d w h)).getTile x y = TileType.Wall) := by
  refine ⟨?_, by decide, ?_, ?_⟩
  · intro x y hx1 hx2 hy1 hy2
    exact caFill_getTile_interior rolls (Map.mkNew d w h) (wf_mkNew d w h) x y
      hx1 hx2 hy1 hy2
  · intro hroll x y hx1 hx2 hy1 hy2
    rw [caFill_getTile_interior rolls (Map.mkNew d w h) (wf_mkNew d w h) x y
      hx1 hx2 hy1 hy2, hroll, if_pos (by omega)]
  · intro hroll x y
    unfold caFill Map.getTile Map.xy_idx
    exact caFillGo_allWall (Map.mkNew d w h).width rolls
      (fun i => by rw [hroll i]; omega) _ 0 _ (getD_mkNew_tiles d w h) _

/-- Claim C2 counterexample: the claim predicts an all-Wall map when every
roll returns 100, but the code turns a roll greater than 55 into Floor — on
a fresh 5×5 map with every roll fixed to 100 the interior tile (1,1) is not
Wall. -/
theorem c2_counterexample :
    ¬ ((caFill (fun _ => 100) (Map.mkNew 1 5 5)).getTile 1 1 = TileType.Wall) := by
  decide

/-- Claim C2 witness: the amended theorem applied at a concrete input. -/
theorem c2_random_fill_witness :
    (caFill (fun _ => 100) (Map.mkNew 1 5 5)).getTile 1 1 = TileType.Floor :=
  (c2_random_fill 1 5 5 (fun _ => 100)).2.2.1 (fun _ => rfl) 1 1
    (by decide) (by decide) (by decide) (by decide)

/-- Claim C7: the random-fill plus smoothing generator is a deterministic
function of the roll sequence — two runs whose rolls agree (in particular,
two runs from the same seed) produce identical output maps. -/
theorem c7_fixed_seed_deterministic (m : Map) (rolls1 rolls2 : Nat → Nat)
    (hagree : ∀ i, i < (m.height - 2).toNat * (m.width - 2).toNat →
      rolls1 i = rolls2 i) :
    caFillSmooth rolls1 m = caFillSmooth rolls2 m := by
  unfold caFillSmooth
  have hfill : caFill rolls1 m = caFill rolls2 m := by
    unfold caFill
    rw [caFillGo_congr m.width rolls1 rolls2 _ 0 m.tiles]
    intro i h1 h2
    rw [length_interiorCoords] at h2
    exact hagree i (by omega)
  rw [hfill]

/-- Claim C7 witness: two roll streams that agree on the consumed prefix give
the same generated map. -/
theorem c7_fixed_seed_deterministic_witness :
    caFillSmooth (fun i => i) (Map.mkNew 1 4 4)
      = caFillSmooth (fun i => if i < 4 then i else 99) (Map.mkNew 1 4 4) :=
  c7_fixed_seed_deterministic (Map.mkNew 1 4 4) _ _ (by decide)

/-- Claim C10: the fill and smoothing steps write only interior tiles
(1 ≤ x ≤ width-2, 1 ≤ y ≤ height-2): every other in-bounds tile keeps its
previous value through both steps, and on the all-Wall fresh map every border
tile stays Wall through the fill and any number of smoothing passes. -/
theorem c10_frame_and_border (rolls : Nat → Nat) :
    (∀ (m : Map) (x y : Int), 0 ≤ x → x < m.width → 0 ≤ y → y < m.height →
      ¬(1 ≤ x ∧ x ≤ m.width - 2 ∧ 1 ≤ y ∧ y ≤ m.height - 2) →
      (caFill rolls m).getTile x y = m.getTile x y
        ∧ (m.wf → (caSmoothPass m).getTile x y = m.getTile x y))
    ∧ (∀ (d w h : Int) (k : Nat) (x y : Int), 0 ≤ x → x < w → 0 ≤ y → y < h →
        (x = 0 ∨ x = w - 1 ∨ y = 0 ∨ y = h - 1) →
        (caSmoothPass^[k] (caFill rolls (Map.mkNew d w h))).getTile x y
          = TileType.Wall) := by
  constructor
  · intro m x y hx hxw hy hyh hni
    constructor
    · exact caFill_getTile_frame rolls m x y hx hxw hy hyh hni
    · intro hwf
      rw [caSmoothPass_getTile m hwf x y hx hxw hy hyh, if_neg hni]
  · intro d w h k x y hx hxw hy hyh hborder
    induction k with
    | zero =>
        rw [Function.iterate_zero_apply]
        have hni0 : ¬(1 ≤ x ∧ x ≤ w - 2 ∧ 1 ≤ y ∧ y ≤ h - 2) := by omega
        rw [caFill_getTile_frame rolls (Map.mkNew d w h) x y hx hxw hy hyh hni0]
        exact getTile_mkNew d w h x y
    | succ k ih =>
        rw [Function.iterate_succ_apply']
        have hwid : (caSmoothPass^[k] (caFill rolls (Map.mkNew d w h))).width = w := by
          rw [caSmoothPass_iterate_width, caFill_width]; rfl
        have hhei : (caSmoothPass^[k] (caFill rolls (Map.mkNew d w h))).height = h := by
          rw [caSmoothPass_iterate_height, caFill_height]; rfl
        have hwf : (caSmoothPass^[k] (caFill rolls (Map.mkNew d w h))).wf :=
          wf_caSmoothPass_iterate _ (wf_caFill rolls _ (wf_mkNew d w h)) k
        rw [caSmoothPass_getTile _ hwf x y hx (by rw [hwid]; exact hxw) hy
          (by rw [hhei]; exact hyh), if_neg (by rw [hwid, hhei]; omega)]
        exact ih

/-- Claim C10 witness: a border tile of a fresh 5×5 map is still Wall after
the fill and three smoothing passes. -/
theorem c10_frame_and_border_witness :
    (caSmoothPass^[3] (caFill (fun _ => 100) (Map.mkNew 1 5 5))).getTile 0 2
      = TileType.Wall :=
  (c10_frame_and_border (fun _ => 100)).2 1 5 5 3 0 2
    (by decide) (by decide) (by decide) (by decide) (by decide)

/-! ## Room rasterizer (src/map_builders/room_draw.rs) -/

/-- Modelled from the spec: `rect.rs` is not among the sources.  A room
rectangle with the corner fields `RoomDrawer::build` reads. -/
structure Rect where
  x1 : Int
  y1 : Int
  x2 : Int
  y2 : Int
deriving DecidableEq, Repr

/-- Modelled from the spec: `map_builders/mod.rs` (the BuilderMap build
context) is not among the sources.  Only the fields the room rasterizer
touches are modelled: the working map and the optional rooms list. -/
structure BuilderMap where
  map : Map
  rooms : Option (List Rect)
deriving DecidableEq, Repr

/-- The interior coordinates of a rectangle, traversed as in the source:
`for y in room.y1+1 ..= room.y2 { for x in room.x1+1 ..= room.x2 }`. -/
def rectInterior (r : Rect) : List (Int × Int) :=
  (intRange (r.y1 + 1) r.y2).flatMap
    (fun y => (intRange (r.x1 + 1) r.x2).map (fun x => (x, y)))

theorem mem_rectInterior {r : Rect} {p : Int × Int} :
    p ∈ rectInterior r
      ↔ r.x1 + 1 ≤ p.1 ∧ p.1 ≤ r.x2 ∧ r.y1 + 1 ≤ p.2 ∧ p.2 ≤ r.y2 := by
  unfold rectInterior
  simp only [List.mem_flatMap, List.mem_map, mem_intRange]
  constructor
  · rintro ⟨y, ⟨hy1, hy2⟩, x, ⟨hx1, hx2⟩, rfl⟩
    exact ⟨hx1, hx2, hy1, hy2⟩
  · obtain ⟨x, y⟩ := p
    rintro ⟨hx1, hx2, hy1, hy2⟩
    exact ⟨y, ⟨hy1, hy2⟩, x, ⟨hx1, hx2⟩, rfl⟩

/-- One write of `RoomDrawer::build`: the tile is set to Floor only when the
usize-cast index passes the guard `idx > 0 && idx < width*height - 1`.  For
a non-negative `y*width+x` the cast is the integer value itself; a negative
value casts to a huge usize and fails the upper bound, so the guard is
equivalent to `0 < y*width+x < width*height - 1` over the integers. -/
def drawTile (m : Map) (x y : Int) : Map :=
  if 0 < m.xy_idx x y ∧ m.xy_idx x y < m.width * m.height - 1
  then m.setIdx (m.xy_idx x y).toNat TileType.Floor else m

/-- The inner nested loops of `RoomDrawer::build` over one room. -/
def drawRoomGo (m : Map) : List (Int × Int) → Map
  | [] => m
  | (x, y) :: cs => drawRoomGo (drawTile m x y) cs

/-- Rasterize one room. -/
def drawRoom (m : Map) (r : Rect) : Map :=
  drawRoomGo m (rectInterior r)

/-- `RoomDrawer::build`: panics (modelled as an error result) when the build
context has no rooms; otherwise rasterizes every room in order. -/
def roomDraw (bd : BuilderMap) : Except String BuilderMap :=
  match bd.rooms with
  | none => Except.error "Room Drawing requires a builder with room structures!"
  | some rooms => Except.ok { bd with map := rooms.foldl drawRoom bd.map }

theorem wf_setIdx (m : Map) (i : Nat) (t : TileType) (hwf : m.wf) :
    (m.setIdx i t).wf := by
  show (m.tiles.set i t).length = (m.width * m.height).toNat
  rw [List.length_set]
  exact hwf

theorem drawTile_width (m : Map) (x y : Int) : (drawTile m x y).width = m.width := by
  unfold drawTile
  split <;> rfl

theorem drawTile_height (m : Map) (x y : Int) : (drawTile m x y).height = m.height := by
  unfold drawTile
  split <;> rfl

theorem drawTile_xy_idx (m : Map) (x0 y0 x y : Int) :
    (drawTile m x0 y0).xy_idx x y = m.xy_idx x y := by
  unfold drawTile
  split <;> rfl

theorem wf_drawTile (m : Map) (x y : Int) (hwf : m.wf) : (drawTile m x y).wf := by
  unfold drawTile
  split
  · exact wf_setIdx m _ _ hwf
  · exact hwf

theorem getTile_drawTile (m : Map) (hwf : m.wf) (x0 y0 a b : Int) :
    (drawTile m x0 y0).getTile a b
      = if (0 < m.xy_idx x0 y0 ∧ m.xy_idx x0 y0 < m.width * m.height - 1)
           ∧ (m.xy_idx x0 y0).toNat = (m.xy_idx a b).toNat
        then TileType.Floor else m.getTile a b := by
  unfold drawTile
  by_cases hg : 0 < m.xy_idx x0 y0 ∧ m.xy_idx x0 y0 < m.width * m.height - 1
  · rw [if_pos hg]
    by_cases hidx : (m.xy_idx x0 y0).toNat = (m.xy_idx a b).toNat
    · rw [if_pos ⟨hg, hidx⟩]
      show (m.tiles.set (m.xy_idx x0 y0).toNat TileType.Floor).getD
        ((m.xy_idx a b)).toNat TileType.Wall = TileType.Floor
      rw [← hidx]
      refine getD_set_eq _ _ _ _ ?_
      rw [hwf]
      omega
    · rw [if_neg (fun hc => hidx hc.2)]
      show (m.tiles.set (m.xy_idx x0 y0).toNat TileType.Floor).getD
        ((m.xy_idx a b)).toNat TileType.Wall = m.getTile a b
      exact getD_set_ne _ _ _ _ _ hidx
  · rw [if_neg hg, if_neg (fun hc => hg hc.1)]

theorem drawRoomGo_width (a : Int) :
    ∀ (cs : List (Int × Int)) (m : Map), (drawRoomGo m cs).width = m.width
  | [], _ => rfl
  | (x, y) :: cs, m => by
      rw [drawRoomGo, drawRoomGo_width a cs, drawTile_width]

theorem drawRoomGo_height (a : Int) :
    ∀ (cs : List (Int × Int)) (m : Map), (drawRoomGo m cs).height = m.height
  | [], _ => rfl
  | (x, y) :: cs, m => by
      rw [drawRoomGo, drawRoomGo_height a cs, drawTile_height]

theorem wf_drawRoomGo :
    ∀ (cs : List (Int × Int)) (m : Map), m.wf → (drawRoomGo m cs).wf
  | [], _, hwf => hwf
  | (x, y) :: cs, m, hwf => by
      rw [drawRoomGo]
      exact wf_drawRoomGo cs _ (wf_drawTile m x y hwf)

theorem getTile_drawRoomGo (a b : Int) :
    ∀ (cs : List (Int × Int)) (m : Map), m.wf →
      (drawRoomGo m cs).getTile a b
        = if ∃ p ∈ cs,
              (0 < m.xy_idx p.1 p.2 ∧ m.xy_idx p.1 p.2 < m.width * m.height - 1)
              ∧ (m.xy_idx p.1 p.2).toNat = (m.xy_idx a b).toNat
          then TileType.Floor else m.getTile a b := by
  intro cs
  induction cs with
  | nil =>
      intro m hwf
      rw [drawRoomGo, if_neg]
      rintro ⟨p, hp, _⟩
      exact absurd hp (List.not_mem_nil p)
  | cons q cs ih =>
      intro m hwf
      obtain ⟨qx, qy⟩ := q
      rw [drawRoomGo, ih (drawTile m qx qy) (wf_drawTile m qx qy hwf)]
      simp only [drawTile_xy_idx, drawTile_width, drawTile_height]
      rw [getTile_drawTile m hwf qx qy a b]
      by_cases hcs : ∃ p ∈ cs,
          (0 < m.xy_idx p.1 p.2 ∧ m.xy_idx p.1 p.2 < m.width * m.height - 1)
          ∧ (m.xy_idx p.1 p.2).toNat = (m.xy_idx a b).toNat
      · rw [if_pos hcs, if_pos]
        obtain ⟨p, hp, hG⟩ := hcs
        exact ⟨p, List.mem_cons_of_mem _ hp, hG⟩
      · rw [if_neg hcs]
        by_cases hq : (0 < m.xy_idx qx qy ∧ m.xy_idx qx qy < m.width * m.height - 1)
            ∧ (m.xy_idx qx qy).toNat = (m.xy_idx a b).toNat
        · rw [if_pos hq, if_pos ⟨(qx, qy), List.mem_cons_self _ _, hq⟩]
        · rw [if_neg hq, if_neg]
          rintro ⟨p, hp, hG⟩
          rcases List.mem_cons.mp hp with heq | hp2
          · subst heq
            exact hq hG
          · exact hcs ⟨p, hp2, hG⟩

theorem drawRoom_width (m : Map) (r : Rect) : (drawRoom m r).width = m.width :=
  drawRoomGo_width 0 (rectInterior r) m

theorem drawRoom_height (m : Map) (r : Rect) : (drawRoom m r).height = m.height :=
  drawRoomGo_height 0 (rectInterior r) m

theorem wf_drawRoom (m : Map) (r : Rect) (hwf : m.wf) : (drawRoom m r).wf :=
  wf_drawRoomGo (rectInterior r) m hwf

theorem drawRoom_xy_idx (m : Map) (r : Rect) (x y : Int) :
    (drawRoom m r).xy_idx x y = m.xy_idx x y := by
  unfold Map.xy_idx
  rw [drawRoom_width]

theorem getTile_drawRoom (a b : Int) (r : Rect) (m : Map) (hwf : m.wf) :
    (drawRoom m r).getTile a b
      = if ∃ p ∈ rectInterior r,
            (0 < m.xy_idx p.1 p.2 ∧ m.xy_idx p.1 p.2 < m.width * m.height - 1)
            ∧ (m.xy_idx p.1 p.2).toNat = (m.xy_idx a b).toNat
        then TileType.Floor else m.getTile a b :=
  getTile_drawRoomGo a b (rectInterior r) m hwf

theorem getTile_roomsFoldl (a b : Int) :
    ∀ (rooms : List Rect) (m : Map), m.wf →
      ((rooms.foldl drawRoom m).getTile a b)
        = if ∃ r ∈ rooms, ∃ p ∈ rectInterior r,
              (0 < m.xy_idx p.1 p.2 ∧ m.xy_idx p.1 p.2 < m.width * m.height - 1)
              ∧ (m.xy_idx p.1 p.2).toNat = (m.xy_idx a b).toNat
          then TileType.Floor else m.getTile a b := by
  intro rooms
  induction rooms with
  | nil =>
      intro m hwf
      rw [List.foldl_nil, if_neg]
      rintro ⟨r, hr, _⟩
      exact absurd hr (List.not_mem_nil r)
  | cons r rooms ih =>
      intro m hwf
      rw [List.foldl_cons, ih (drawRoom m r) (wf_drawRoom m r hwf)]
      simp only [drawRoom_xy_idx, drawRoom_width, drawRoom_height]
      rw [getTile_drawRoom a b r m hwf]
      by_cases hrs : ∃ r2 ∈ rooms, ∃ p ∈ rectInterior r2,
          (0 < m.xy_idx p.1 p.2 ∧ m.xy_idx p.1 p.2 < m.width * m.height - 1)
          ∧ (m.xy_idx p.1 p.2).toNat = (m.xy_idx a b).toNat
      · rw [if_pos hrs, if_pos]
        obtain ⟨r2, hr2, hG⟩ := hrs
        exact ⟨r2, List.mem_cons_of_mem _ hr2, hG⟩
      · rw [if_neg hrs]
        by_cases hr : ∃ p ∈ rectInterior r,
            (0 < m.xy_idx p.1 p.2 ∧ m.xy_idx p.1 p.2 < m.width * m.height - 1)
            ∧ (m.xy_idx p.1 p.2).toNat = (m.xy_idx a b).toNat
        · rw [if_pos hr, if_pos ⟨r, List.mem_cons_self _ _, hr⟩]
        · rw [if_neg hr, if_neg]
          rintro ⟨r2, hr2, hG⟩
          rcases List.mem_cons.mp hr2 with heq | hr3
          · exact hr (heq ▸ hG)
          · exact hrs ⟨r2, hr3, hG⟩

/-- Claim C6: when the build context has no rooms list, the room rasterizer
fails with a fatal error (the source panics) and never returns a map, so no
tile is modified. -/
theorem c6_rooms_required (bd : BuilderMap) (hnone : bd.rooms = none) :
    roomDraw bd = Except.error "Room Drawing requires a builder with room structures!"
    ∧ ∀ bd2, roomDraw bd ≠ Except.ok bd2 := by
  unfold roomDraw
  rw [hnone]
  exact ⟨rfl, fun bd2 hcontra => Except.noConfusion hcontra⟩

/-- Claim C6 witness: the failure on a concrete room-less context. -/
theorem c6_rooms_required_witness :
    roomDraw ⟨Map.mkNew 1 4 4, none⟩
      = Except.error "Room Drawing requires a builder with room structures!" :=
  (c6_rooms_required ⟨Map.mkNew 1 4 4, none⟩ rfl).1

/-- Claim C5 (amended): for rectangles whose interiors lie within map bounds
and pass the source's index guard (row-major index strictly between 0 and
width*height-1), the rasterizer writes Floor to exactly the interior tiles
and modifies no other tile.  Without those provisos the claim fails: the
guard checks the flattened index rather than the coordinates, so an interior
reaching past the right edge wraps around to tiles of the following row. -/
theorem c5_room_rasterizer (bd : BuilderMap) (rooms : List Rect)
    (hsome : bd.rooms = some rooms) (hwf : bd.map.wf)
    (hin : ∀ r ∈ rooms, ∀ p ∈ rectInterior r,
        0 ≤ p.1 ∧ p.1 < bd.map.width ∧ 0 ≤ p.2 ∧ p.2 < bd.map.height
        ∧ 0 < bd.map.xy_idx p.1 p.2
        ∧ bd.map.xy_idx p.1 p.2 < bd.map.width * bd.map.height - 1) :
    ∃ bd2, roomDraw bd = Except.ok bd2
      ∧ ∀ x y, 0 ≤ x → x < bd.map.width → 0 ≤ y → y < bd.map.height →
          bd2.map.getTile x y
            = (if ∃ r ∈ rooms, (x, y) ∈ rectInterior r
               then TileType.Floor else bd.map.getTile x y) := by
  refine ⟨{ bd with map := rooms.foldl drawRoom bd.map }, ?_, ?_⟩
  · unfold roomDraw
    rw [hsome]
  · intro x y hx hxw hy hyh
    show ((rooms.foldl drawRoom bd.map).getTile x y) = _
    rw [getTile_roomsFoldl x y rooms bd.map hwf]
    refine if_congr ?_ rfl rfl
    constructor
    · rintro ⟨r, hr, p, hp, hG, hidx⟩
      obtain ⟨hp1, hp2, hp3, hp4, _, _⟩ := hin r hr p hp
      have hco := @xy_idx_inj bd.map.width p.1 p.2 x y hp1 hp2 hx hxw hp3 hy hidx
      have hpe : p = (x, y) := Prod.ext hco.1 hco.2
      exact ⟨r, hr, hpe ▸ hp⟩
    · rintro ⟨r, hr, hpmem⟩
      obtain ⟨_, _, _, _, hg1, hg2⟩ := hin r hr (x, y) hpmem
      exact ⟨r, hr, (x, y), hpmem, ⟨hg1, hg2⟩, rfl⟩

/-- Claim C5 counterexample: on a 4×4 map, the room (2,0)-(4,2) has interior
tiles with x = 4 outside map bounds; their flattened indices wrap to the next
row, so the rasterizer turns tile (0,2) — outside every room interior — into
Floor. -/
theorem c5_counterexample :
    (match roomDraw ⟨Map.mkNew 1 4 4, some [⟨2, 0, 4, 2⟩]⟩ with
      | Except.ok bd2 => bd2.map.getTile 0 2
      | Except.error _ => TileType.Wall) = TileType.Floor
    ∧ ¬ ((0 : Int), (2 : Int)) ∈ rectInterior ⟨2, 0, 4, 2⟩ := by
  constructor
  · decide
  · decide

/-- Claim C5 witness: the amended theorem applied to an in-bounds room. -/
theorem c5_room_rasterizer_witness :
    (match roomDraw ⟨Map.mkNew 1 5 5, some [⟨0, 0, 3, 3⟩]⟩ with
      | Except.ok bd2 => bd2.map.getTile 1 1
      | Except.error _ => TileType.Wall) = TileType.Floor := by
  obtain ⟨bd2, heq, hchar⟩ := c5_room_rasterizer ⟨Map.mkNew 1 5 5, some [⟨0, 0, 3, 3⟩]⟩
    [⟨0, 0, 3, 3⟩] rfl (wf_mkNew 1 5 5) (by decide)
  rw [heq]
  show bd2.map.getTile 1 1 = TileType.Floor
  rw [hchar 1 1 (by decide) (by decide) (by decide) (by decide)]
  rw [if_pos ⟨⟨0, 0, 3, 3⟩, List.mem_cons_self _ _, by decide⟩]

/-! ## Prefab builder (src/map_builders/prefab_builder.rs) -/

/-- Modelled from the spec: the REX Paint template resource (an external
`rltk::rex::XpFile`) is external data, not repository code.  A layer is a
glyph grid addressed as `layer.get(x, y)` with its own width and height. -/
structure XpLayer where
  width : Nat
  height : Nat
  ch : Nat → Nat → Char

/-- Modelled from the spec: a template file is a list of layers. -/
structure XpFile where
  layers : List XpLayer

/-- The builder state `PrefabBuilder::load_rex_map` mutates: the working map,
the starting position, the spawn list and the warning log (the source logs
through `rltk::console::log`; the log is modelled as a list of messages). -/
structure PrefabState where
  map : Map
  startingPosition : Position
  spawns : List (Nat × String)
  log : List String

/-- `PrefabBuilder::new`: fresh all-Wall map, starting position (0,0), no
spawns. -/
def prefabInitial (depth w h : Int) : PrefabState :=
  { map := Map.mkNew depth w h, startingPosition := ⟨0, 0⟩, spawns := [], log := [] }

/-- The glyph dispatch of `load_rex_map`, one cell at a time (the source's
`match (cell.ch as u8) as char` arms in order). -/
def prefabGlyph (st : PrefabState) (x y : Nat) (c : Char) : PrefabState :=
  if c = ' ' then
    { st with map := st.map.setIdx (st.map.xy_idx x y).toNat TileType.Floor }
  else if c = '#' then
    { st with map := st.map.setIdx (st.map.xy_idx x y).toNat TileType.Wall }
  else if c = '@' then
    { st with map := st.map.setIdx (st.map.xy_idx x y).toNat TileType.Floor,
              startingPosition := ⟨(x : Int), (y : Int)⟩ }
  else if c = '>' then
    { st with map := st.map.setIdx (st.map.xy_idx x y).toNat TileType.DownStairs }
  else if c = 'g' then
    { st with map := st.map.setIdx (st.map.xy_idx x y).toNat TileType.Floor,
              spawns := st.spawns ++ [((st.map.xy_idx x y).toNat, "Goblin")] }
  else if c = 'o' then
    { st with map := st.map.setIdx (st.map.xy_idx x y).toNat TileType.Floor,
              spawns := st.spawns ++ [((st.map.xy_idx x y).toNat, "Orc")] }
  else if c = '^' then
    { st with map := st.map.setIdx (st.map.xy_idx x y).toNat TileType.Floor,
              spawns := st.spawns ++ [((st.map.xy_idx x y).toNat, "Bear Trap")] }
  else if c = '%' then
    { st with map := st.map.setIdx (st.map.xy_idx x y).toNat TileType.Floor,
              spawns := st.spawns ++ [((st.map.xy_idx x y).toNat, "Rations")] }
  else if c = '!' then
    { st with map := st.map.setIdx (st.map.xy_idx x y).toNat TileType.Floor,
              spawns := st.spawns ++ [((st.map.xy_idx x y).toNat, "Health Potion")] }
  else
    { st with log := st.log ++ ["Unknown glyph loading map: " ++ c.toString] }

/-- One cell visit: the glyph acts only when the cell lies inside the map
(`x < self.map.width as usize && y < self.map.height as usize`). -/
def prefabCell (layer : XpLayer) (st : PrefabState) (p : Nat × Nat) : PrefabState :=
  if (p.1 : Int) < st.map.width ∧ (p.2 : Int) < st.map.height
  then prefabGlyph st p.1 p.2 (layer.ch p.1 p.2)
  else st

/-- The cell traversal order of `load_rex_map`:
`for y in 0..layer.height { for x in 0..layer.width }`. -/
def layerCells (layer : XpLayer) : List (Nat × Nat) :=
  (List.range layer.height).flatMap
    (fun y => (List.range layer.width).map (fun x => (x, y)))

/-- Load one template layer. -/
def loadLayer (st : PrefabState) (layer : XpLayer) : PrefabState :=
  (layerCells layer).foldl (prefabCell layer) st

/-- `PrefabBuilder::load_rex_map` over all layers of the file. -/
def load_rex_map (st : PrefabState) (file : XpFile) : PrefabState :=
  file.layers.foldl loadLayer st

/-- The start search of `PrefabBuilder::build`: walk left from the given x
(same y) until the tile read through `xy_idx` is Floor.  The walk follows the
flattened index, so it wraps into earlier rows; when the index would turn
negative the Rust cast to usize panics on the tile access, modelled as
`none`.  The fuel is one more than the start index, enough to reach that
point. -/
def walkLeft (m : Map) (y : Int) : Nat → Int → Option Int
  | 0, _ => none
  | fuel + 1, x =>
      if m.xy_idx x y < 0 then none
      else if m.getTile x y = TileType.Floor then some x
      else walkLeft m y fuel (x - 1)

/-- Whether a tile can be traversed: Walls are not traversed, Floor and the
floor-like DownStairs are. -/
def walkableTile (t : TileType) : Bool :=
  match t with
  | TileType.Wall => false
  | _ => true

/-- 4-connected neighbour indices of a flattened index. -/
def neighbours4 (w h : Int) (i : Nat) : List Nat :=
  (if i % w.toNat ≠ 0 then [i - 1] else [])
    ++ (if i % w.toNat + 1 < w.toNat then [i + 1] else [])
    ++ (if w.toNat ≤ i then [i - w.toNat] else [])
    ++ (if i / w.toNat + 1 < h.toNat then [i + w.toNat] else [])

/-- One breadth-first round: any unlabelled walkable tile adjacent to a
labelled tile receives distance `dcur + 1`. -/
def bfsStep (m : Map) (dist : List (Option Nat)) (dcur : Nat) : List (Option Nat) :=
  dist.mapIdx (fun i v =>
    match v with
    | some dd => some dd
    | none =>
        if walkableTile (m.tiles.getD i TileType.Wall)
            ∧ (neighbours4 m.width m.height i).any (fun j => (dist.getD j none).isSome)
        then some (dcur + 1) else none)

def bfsAux (m : Map) : Nat → List (Option Nat) → Nat → List (Option Nat)
  | 0, dist, _ => dist
  | fuel + 1, dist, dcur => bfsAux m fuel (bfsStep m dist dcur) (dcur + 1)

/-- Modelled from the spec: `get_most_distant_area` (in map_builders/mod.rs,
not among the sources).  Per spec §4.2: a breadth-first distance field from
the start over 4-connected non-Wall tiles; with `exclude_unreachable` set,
floor tiles at infinite distance are culled to Wall; the returned index is
the tile of maximum finite distance, ties broken by first-found scan order,
and the start itself when nothing else is reachable. -/
def getMostDistantArea (m : Map) (start : Nat) (excludeUnreachable : Bool) :
    Map × Nat :=
  let dist := bfsAux m (m.width * m.height).toNat
    ((List.replicate (m.width * m.height).toNat (none : Option Nat)).set start (some 0)) 0
  let m2 := if excludeUnreachable then
      { m with tiles := (List.range m.tiles.length).map (fun i =>
          if m.tiles.getD i TileType.Wall = TileType.Floor ∧ dist.getD i none = none
          then TileType.Wall else m.tiles.getD i TileType.Wall) }
    else m
  let best := (List.range dist.length).foldl (fun acc i =>
      match dist.getD i none, dist.getD acc none with
      | some di, some da => if da < di then i else acc
      | some _, none => i
      | none, _ => acc) start
  (m2, best)

/-- The start-search-plus-exit-placement block of `PrefabBuilder::build`,
executed only when the starting position after loading has x == 0. -/
def prefabFallback (st : PrefabState) : Option PrefabState :=
  match walkLeft st.map (st.map.height / 2)
      ((st.map.xy_idx (st.map.width / 2) (st.map.height / 2)).toNat + 2)
      (st.map.width / 2) with
  | none => none
  | some sx =>
      let startIdx := (st.map.xy_idx sx (st.map.height / 2)).toNat
      let res := getMostDistantArea st.map startIdx true
      some { st with map := res.1.setIdx res.2 TileType.DownStairs,
                     startingPosition := ⟨sx, st.map.height / 2⟩ }

/-- `PrefabBuilder::build`: load the template, then run the fallback
start-search and stairs placement exactly when `starting_position.x == 0`. -/
def prefabBuild (file : XpFile) (depth w h : Int) : Option PrefabState :=
  if (load_rex_map (prefabInitial depth w h) file).startingPosition.x = 0
  then prefabFallback (load_rex_map (prefabInitial depth w h) file)
  else some (load_rex_map (prefabInitial depth w h) file)

/-- The glyphs `load_rex_map` recognizes. -/
def recognizedGlyph (c : Char) : Prop :=
  c = ' ' ∨ c = '#' ∨ c = '@' ∨ c = '>' ∨ c = 'g' ∨ c = 'o' ∨ c = '^' ∨ c = '%' ∨ c = '!'

instance (c : Char) : Decidable (recognizedGlyph c) := by
  unfold recognizedGlyph
  infer_instance

/-- The glyphs that add a spawn-list entry. -/
def spawnGlyph (c : Char) : Prop :=
  c = 'g' ∨ c = 'o' ∨ c = '^' ∨ c = '%' ∨ c = '!'

instance (c : Char) : Decidable (spawnGlyph c) := by
  unfold spawnGlyph
  infer_instance

/-- The tile value a glyph writes, given the tile's prior value (kept for an
unrecognized glyph). -/
def glyphTile (c : Char) (prev : TileType) : TileType :=
  if c = ' ' then TileType.Floor
  else if c = '#' then TileType.Wall
  else if c = '@' then TileType.Floor
  else if c = '>' then TileType.DownStairs
  else if c = 'g' then TileType.Floor
  else if c = 'o' then TileType.Floor
  else if c = '^' then TileType.Floor
  else if c = '%' then TileType.Floor
  else if c = '!' then TileType.Floor
  else prev

theorem getTile_setIdx_self (m : Map) (x y : Int) (t : TileType)
    (hlt : (m.xy_idx x y).toNat < m.tiles.length) :
    (m.setIdx (m.xy_idx x y).toNat t).getTile x y = t := by
  show (m.tiles.set (m.xy_idx x y).toNat t).getD (m.xy_idx x y).toNat TileType.Wall = t
  exact getD_set_eq _ _ _ _ hlt

theorem getTile_setIdx_other (m : Map) (i : Nat) (t : TileType) (x y : Int)
    (hne : i ≠ (m.xy_idx x y).toNat) :
    (m.setIdx i t).getTile x y = m.getTile x y := by
  show (m.tiles.set i t).getD (m.xy_idx x y).toNat TileType.Wall = _
  exact getD_set_ne _ _ _ _ _ hne

-- Per-glyph effect lemmas.

theorem prefabGlyph_map_width (st : PrefabState) (x y : Nat) (c : Char) :
    (prefabGlyph st x y c).map.width = st.map.width := by
  unfold prefabGlyph
  split_ifs <;> rfl

theorem prefabGlyph_map_height (st : PrefabState) (x y : Nat) (c : Char) :
    (prefabGlyph st x y c).map.height = st.map.height := by
  unfold prefabGlyph
  split_ifs <;> rfl

theorem wf_prefabGlyph (st : PrefabState) (x y : Nat) (c : Char)
    (hwf : st.map.wf) : (prefabGlyph st x y c).map.wf := by
  unfold prefabGlyph
  split_ifs <;> first | exact wf_setIdx _ _ _ hwf | exact hwf

set_option maxHeartbeats 1600000 in
theorem prefabGlyph_getTile_self (st : PrefabState) (hwf : st.map.wf) (x y : Nat)
    (hx : (x : Int) < st.map.width) (hy : (y : Int) < st.map.height) (c : Char) :
    (prefabGlyph st x y c).map.getTile x y = glyphTile c (st.map.getTile x y) := by
  have hlt : (st.map.xy_idx (x : Int) (y : Int)).toNat < st.map.tiles.length := by
    rw [hwf]
    exact xy_idx_lt_area (by positivity) hx (by positivity) hy
  unfold prefabGlyph glyphTile
  split_ifs <;>
    first
      | rfl
      | exact getTile_setIdx_self st.map x y TileType.Floor hlt
      | exact getTile_setIdx_self st.map x y TileType.Wall hlt
      | exact getTile_setIdx_self st.map x y TileType.DownStairs hlt

theorem prefabGlyph_getTile_other (st : PrefabState) (x y : Nat) (c : Char)
    (a b : Int) (hne : (st.map.xy_idx x y).toNat ≠ (st.map.xy_idx a b).toNat) :
    (prefabGlyph st x y c).map.getTile a b = st.map.getTile a b := by
  unfold prefabGlyph
  split_ifs <;> first | exact getTile_setIdx_other st.map _ _ a b hne | rfl

theorem prefabGlyph_start_at (st : PrefabState) (x y : Nat) (c : Char)
    (h : c = '@') :
    (prefabGlyph st x y c).startingPosition = ⟨(x : Int), (y : Int)⟩ := by
  subst h
  rfl

theorem prefabGlyph_start_not (st : PrefabState) (x y : Nat) (c : Char)
    (h : c ≠ '@') :
    (prefabGlyph st x y c).startingPosition = st.startingPosition := by
  unfold prefabGlyph
  split_ifs <;> rfl

theorem prefabGlyph_spawns_mem (st : PrefabState) (x y : Nat) (c : Char) :
    ∀ e ∈ (prefabGlyph st x y c).spawns,
      e ∈ st.spawns
        ∨ (spawnGlyph c ∧ e.1 = (st.map.xy_idx x y).toNat) := by
  unfold prefabGlyph
  split_ifs <;> intro e he <;>
    first
      | exact Or.inl he
      | (rcases List.mem_append.mp he with h1 | h2
         · exact Or.inl h1
         · rw [List.mem_singleton] at h2
           subst h2
           subst_vars
           exact Or.inr ⟨by decide, rfl⟩)

theorem prefabGlyph_spawns_not (st : PrefabState) (x y : Nat) (c : Char)
    (h : ¬ spawnGlyph c) :
    (prefabGlyph st x y c).spawns = st.spawns := by
  unfold prefabGlyph
  split_ifs <;> first | rfl | (subst_vars; exact absurd (by decide) h)

theorem prefabGlyph_log_mono (st : PrefabState) (x y : Nat) (c : Char) :
    ∀ s ∈ st.log, s ∈ (prefabGlyph st x y c).log := by
  unfold prefabGlyph
  split_ifs <;> intro s hs <;>
    first | exact hs | exact List.mem_append.mpr (Or.inl hs)

theorem prefabGlyph_log_warn (st : PrefabState) (x y : Nat) (c : Char)
    (h : ¬ recognizedGlyph c) :
    ("Unknown glyph loading map: " ++ c.toString) ∈ (prefabGlyph st x y c).log := by
  unfold prefabGlyph
  split_ifs <;>
    first
      | exact List.mem_append.mpr (Or.inr (List.mem_singleton.mpr rfl))
      | (subst_vars; exact absurd (by decide) h)

-- Cell-level wrapper lemmas (the in-bounds guard of each visit).

theorem prefabCell_map_width (L : XpLayer) (st : PrefabState) (p : Nat × Nat) :
    (prefabCell L st p).map.width = st.map.width := by
  unfold prefabCell
  split
  · exact prefabGlyph_map_width st p.1 p.2 _
  · rfl

theorem prefabCell_map_height (L : XpLayer) (st : PrefabState) (p : Nat × Nat) :
    (prefabCell L st p).map.height = st.map.height := by
  unfold prefabCell
  split
  · exact prefabGlyph_map_height st p.1 p.2 _
  · rfl

theorem wf_prefabCell (L : XpLayer) (st : PrefabState) (p : Nat × Nat)
    (hwf : st.map.wf) : (prefabCell L st p).map.wf := by
  unfold prefabCell
  split
  · exact wf_prefabGlyph st p.1 p.2 _ hwf
  · exact hwf

theorem prefabCell_getTile_other (L : XpLayer) (st : PrefabState) (q : Nat × Nat)
    (a b : Nat) (hqne : q ≠ (a, b))
    (ha : (a : Int) < st.map.width) (hb : (b : Int) < st.map.height) :
    (prefabCell L st q).map.getTile a b = st.map.getTile a b := by
  unfold prefabCell
  split
  · next hg =>
      apply prefabGlyph_getTile_other
      intro heq
      have hco := @xy_idx_inj st.map.width (q.1 : Int) (q.2 : Int) (a : Int) (b : Int)
        (by positivity) hg.1 (by positivity) ha (by positivity) (by positivity) heq
      have h1 : q.1 = a := by exact_mod_cast hco.1
      have h2 : q.2 = b := by exact_mod_cast hco.2
      exact hqne (Prod.ext h1 h2)
  · rfl

-- Fold-level lemmas over a cell list, with the map dimensions fixed.

theorem loadCells_width (L : XpLayer) :
    ∀ (cs : List (Nat × Nat)) (st : PrefabState),
      (cs.foldl (prefabCell L) st).map.width = st.map.width
  | [], _ => rfl
  | q :: cs, st => by
      rw [List.foldl_cons, loadCells_width L cs, prefabCell_map_width]

theorem loadCells_height (L : XpLayer) :
    ∀ (cs : List (Nat × Nat)) (st : PrefabState),
      (cs.foldl (prefabCell L) st).map.height = st.map.height
  | [], _ => rfl
  | q :: cs, st => by
      rw [List.foldl_cons, loadCells_height L cs, prefabCell_map_height]

theorem wf_loadCells (L : XpLayer) :
    ∀ (cs : List (Nat × Nat)) (st : PrefabState), st.map.wf →
      (cs.foldl (prefabCell L) st).map.wf
  | [], _, hwf => hwf
  | q :: cs, st, hwf => by
      rw [List.foldl_cons]
      exact wf_loadCells L cs _ (wf_prefabCell L st q hwf)

theorem loadCells_getTile_not_mem (L : XpLayer) (a b : Nat) (w h : Int) :
    ∀ (cs : List (Nat × Nat)) (st : PrefabState),
      st.map.width = w → st.map.height = h →
      (a, b) ∉ cs → (a : Int) < w → (b : Int) < h →
      (cs.foldl (prefabCell L) st).map.getTile a b = st.map.getTile a b
  | [], _, _, _, _, _, _ => rfl
  | q :: cs, st, hw, hh, hnot, ha, hb => by
      rw [List.foldl_cons]
      have hqne : q ≠ (a, b) := by
        intro he
        exact hnot (List.mem_cons.mpr (Or.inl he.symm))
      have hstep := prefabCell_getTile_other L st q a b hqne
        (by rw [hw]; exact ha) (by rw [hh]; exact hb)
      rw [loadCells_getTile_not_mem L a b w h cs _
        (by rw [prefabCell_map_width]; exact hw)
        (by rw [prefabCell_map_height]; exact hh)
        (fun hm => hnot (List.mem_cons_of_mem _ hm)) ha hb, hstep]

theorem loadCells_getTile_mem (L : XpLayer) (a b : Nat) (w h : Int) :
    ∀ (cs : List (Nat × Nat)) (st : PrefabState),
      st.map.width = w → st.map.height = h → st.map.wf →
      cs.Nodup → (a, b) ∈ cs → (a : Int) < w → (b : Int) < h →
      (cs.foldl (prefabCell L) st).map.getTile a b
        = glyphTile (L.ch a b) (st.map.getTile a b) := by
  intro cs
  induction cs with
  | nil => intro st _ _ _ _ hmem; cases hmem
  | cons q cs ih =>
      intro st hw hh hwf hnd hmem ha hb
      rw [List.foldl_cons, List.nodup_cons] at *
      rcases List.mem_cons.mp hmem with heq | hmem2
      · have hq : q = (a, b) := heq.symm
        subst hq
        have hstep : (prefabCell L st (a, b)).map.getTile a b
            = glyphTile (L.ch a b) (st.map.getTile a b) := by
          unfold prefabCell
          rw [if_pos ⟨by rw [hw]; exact ha, by rw [hh]; exact hb⟩]
          exact prefabGlyph_getTile_self st hwf a b
            (by rw [hw]; exact ha) (by rw [hh]; exact hb) _
        rw [loadCells_getTile_not_mem L a b w h cs _
          (by rw [prefabCell_map_width]; exact hw)
          (by rw [prefabCell_map_height]; exact hh) hnd.1 ha hb, hstep]
      · have hqne : q ≠ (a, b) := fun he => hnd.1 (he ▸ hmem2)
        rw [ih _ (by rw [prefabCell_map_width]; exact hw)
          (by rw [prefabCell_map_height]; exact hh)
          (wf_prefabCell L st q hwf) hnd.2 hmem2 ha hb]
        rw [prefabCell_getTile_other L st q a b hqne
          (by rw [hw]; exact ha) (by rw [hh]; exact hb)]

theorem loadCells_start_not (L : XpLayer) (w h : Int) :
    ∀ (cs : List (Nat × Nat)) (st : PrefabState),
      st.map.width = w → st.map.height = h →
      (∀ p ∈ cs, (p.1 : Int) < w → (p.2 : Int) < h → L.ch p.1 p.2 ≠ '@') →
      (cs.foldl (prefabCell L) st).startingPosition = st.startingPosition
  | [], _, _, _, _ => rfl
  | q :: cs, st, hw, hh, hno => by
      rw [List.foldl_cons]
      have hstep : (prefabCell L st q).startingPosition = st.startingPosition := by
        unfold prefabCell
        split
        · next hg =>
            exact prefabGlyph_start_not st q.1 q.2 _
              (hno q (List.mem_cons_self _ _) (by rw [← hw]; exact hg.1)
                (by rw [← hh]; exact hg.2))
        · rfl
      rw [loadCells_start_not L w h cs _
        (by rw [prefabCell_map_width]; exact hw)
        (by rw [prefabCell_map_height]; exact hh)
        (fun p hp => hno p (List.mem_cons_of_mem _ hp)), hstep]

theorem loadCells_start_at (L : XpLayer) (a b : Nat) (w h : Int) :
    ∀ (cs : List (Nat × Nat)) (st : PrefabState),
      st.map.width = w → st.map.height = h →
      cs.Nodup → (a, b) ∈ cs → (a : Int) < w → (b : Int) < h →
      L.ch a b = '@' →
      (∀ p ∈ cs, (p.1 : Int) < w → (p.2 : Int) < h →
        L.ch p.1 p.2 = '@' → p = (a, b)) →
      (cs.foldl (prefabCell L) st).startingPosition = ⟨(a : Int), (b : Int)⟩ := by
  intro cs
  induction cs with
  | nil => intro st _ _ _ hmem; cases hmem
  | cons q cs ih =>
      intro st hw hh hnd hmem ha hb hat huniq
      rw [List.foldl_cons, List.nodup_cons] at *
      rcases List.mem_cons.mp hmem with heq | hmem2
      · have hq : q = (a, b) := heq.symm
        subst hq
        have hstep : (prefabCell L st (a, b)).startingPosition
            = ⟨(a : Int), (b : Int)⟩ := by
          unfold prefabCell
          rw [if_pos ⟨by rw [hw]; exact ha, by rw [hh]; exact hb⟩]
          exact prefabGlyph_start_at st a b _ hat
        rw [loadCells_start_not L w h cs _
          (by rw [prefabCell_map_width]; exact hw)
          (by rw [prefabCell_map_height]; exact hh) ?_, hstep]
        intro p hp hpw hph hpat
        exact absurd (huniq p (List.mem_cons_of_mem _ hp) hpw hph hpat ▸ hp) hnd.1
      · have hqstep : (prefabCell L st q).startingPosition = st.startingPosition := by
          unfold prefabCell
          split
          · next hg =>
              refine prefabGlyph_start_not st q.1 q.2 _ ?_
              intro hqat
              have hqab := huniq q (List.mem_cons_self _ _)
                (by rw [← hw]; exact hg.1) (by rw [← hh]; exact hg.2) hqat
              exact hnd.1 (hqab ▸ hmem2)
          · rfl
        rw [ih _ (by rw [prefabCell_map_width]; exact hw)
          (by rw [prefabCell_map_height]; exact hh) hnd.2 hmem2 ha hb hat
          (fun p hp => huniq p (List.mem_cons_of_mem _ hp))]

theorem loadCells_spawns_mem (L : XpLayer) (w h : Int) :
    ∀ (cs : List (Nat × Nat)) (st : PrefabState),
      st.map.width = w → st.map.height = h →
      ∀ e ∈ (cs.foldl (prefabCell L) st).spawns,
        e ∈ st.spawns
          ∨ ∃ p ∈ cs, (p.1 : Int) < w ∧ (p.2 : Int) < h
              ∧ spawnGlyph (L.ch p.1 p.2)
              ∧ e.1 = ((p.2 : Int) * w + (p.1 : Int)).toNat
  | [], _, _, _, _, he => Or.inl he
  | q :: cs, st, hw, hh, e, he => by
      rw [List.foldl_cons] at he
      rcases loadCells_spawns_mem L w h cs _
          (by rw [prefabCell_map_width]; exact hw)
          (by rw [prefabCell_map_height]; exact hh) e he with hin | hfrom
      · unfold prefabCell at hin
        by_cases hg : ((q.1 : Int) < st.map.width ∧ (q.2 : Int) < st.map.height)
        · rw [if_pos hg] at hin
          rcases prefabGlyph_spawns_mem st q.1 q.2 _ e hin with h1 | h2
          · exact Or.inl h1
          · refine Or.inr ⟨q, List.mem_cons_self _ _,
              by rw [← hw]; exact hg.1, by rw [← hh]; exact hg.2, h2.1, ?_⟩
            rw [h2.2]
            show (st.map.xy_idx (q.1 : Int) (q.2 : Int)).toNat = _
            unfold Map.xy_idx
            rw [hw]
        · rw [if_neg hg] at hin
          exact Or.inl hin
      · obtain ⟨p, hp, hrest⟩ := hfrom
        exact Or.inr ⟨p, List.mem_cons_of_mem _ hp, hrest⟩

theorem loadCells_log_mono (L : XpLayer) :
    ∀ (cs : List (Nat × Nat)) (st : PrefabState) (s : String),
      s ∈ st.log → s ∈ (cs.foldl (prefabCell L) st).log
  | [], _, _, hs => hs
  | q :: cs, st, s, hs => by
      rw [List.foldl_cons]
      refine loadCells_log_mono L cs _ s ?_
      unfold prefabCell
      split
      · exact prefabGlyph_log_mono st q.1 q.2 _ s hs
      · exact hs

theorem loadCells_log_warn (L : XpLayer) (a b : Nat) (w h : Int) :
    ∀ (cs : List (Nat × Nat)) (st : PrefabState),
      st.map.width = w → st.map.height = h →
      (a, b) ∈ cs → (a : Int) < w → (b : Int) < h →
      ¬ recognizedGlyph (L.ch a b) →
      ("Unknown glyph loading map: " ++ (L.ch a b).toString)
        ∈ (cs.foldl (prefabCell L) st).log := by
  intro cs
  induction cs with
  | nil => intro st _ _ hmem; cases hmem
  | cons q cs ih =>
      intro st hw hh hmem ha hb hur
      rw [List.foldl_cons]
      rcases List.mem_cons.mp hmem with heq | hmem2
      · have hq : q = (a, b) := heq.symm
        subst hq
        refine loadCells_log_mono L cs _ _ ?_
        unfold prefabCell
        rw [if_pos ⟨by rw [hw]; exact ha, by rw [hh]; exact hb⟩]
        exact prefabGlyph_log_warn st a b _ hur
      · exact ih _ (by rw [prefabCell_map_width]; exact hw)
          (by rw [prefabCell_map_height]; exact hh) hmem2 ha hb hur

-- The cell traversal visits each layer cell exactly once.

theorem mem_layerCells {L : XpLayer} {p : Nat × Nat} :
    p ∈ layerCells L ↔ p.1 < L.width ∧ p.2 < L.height := by
  unfold layerCells
  simp only [List.mem_flatMap, List.mem_map, List.mem_range]
  constructor
  · rintro ⟨y, hy, x, hx, rfl⟩
    exact ⟨hx, hy⟩
  · obtain ⟨x, y⟩ := p
    rintro ⟨hx, hy⟩
    exact ⟨y, hy, x, hx, rfl⟩

theorem layerCells_eq (L : XpLayer) :
    layerCells L = (List.range (L.height * L.width)).map
      (fun j => (j % L.width, j / L.width)) :=
  flatMap_range_rows L.width (fun r c => (c, r)) L.height

theorem layerCells_nodup (L : XpLayer) : (layerCells L).Nodup := by
  rw [layerCells_eq]
  apply (List.nodup_range _).map_on
  intro j1 h1 j2 h2 heq
  rw [List.mem_range] at h1 h2
  rw [Prod.mk.injEq] at heq
  obtain ⟨hm, hd⟩ := heq
  have e1 := Nat.div_add_mod j1 L.width
  have e2 := Nat.div_add_mod j2 L.width
  rw [hm, hd] at e1
  exact e1.symm.trans e2

-- Per-tile and start characterization of loading one layer.

theorem loadLayer_getTile (L : XpLayer) (st : PrefabState) (w h : Int)
    (hw : st.map.width = w) (hh : st.map.height = h) (hwf : st.map.wf)
    (a b : Nat) (ha : (a : Int) < w) (hb : (b : Int) < h) :
    (loadLayer st L).map.getTile a b
      = if a < L.width ∧ b < L.height
        then glyphTile (L.ch a b) (st.map.getTile a b)
        else st.map.getTile a b := by
  unfold loadLayer
  by_cases hmem : a < L.width ∧ b < L.height
  · rw [if_pos hmem]
    exact loadCells_getTile_mem L a b w h (layerCells L) st hw hh hwf
      (layerCells_nodup L) (mem_layerCells.mpr hmem) ha hb
  · rw [if_neg hmem]
    exact loadCells_getTile_not_mem L a b w h (layerCells L) st hw hh
      (fun hm => hmem (mem_layerCells.mp hm)) ha hb

theorem loadLayer_start_at (L : XpLayer) (st : PrefabState) (w h : Int)
    (hw : st.map.width = w) (hh : st.map.height = h)
    (a b : Nat) (haL : a < L.width) (hbL : b < L.height)
    (ha : (a : Int) < w) (hb : (b : Int) < h)
    (hat : L.ch a b = '@')
    (huniq : ∀ x y, x < L.width → y < L.height → L.ch x y = '@' → (x, y) = (a, b)) :
    (loadLayer st L).startingPosition = ⟨(a : Int), (b : Int)⟩ := by
  unfold loadLayer
  refine loadCells_start_at L a b w h (layerCells L) st hw hh (layerCells_nodup L)
    (mem_layerCells.mpr ⟨haL, hbL⟩) ha hb hat ?_
  intro p hp hpw hph hpat
  have hbnd := mem_layerCells.mp hp
  exact huniq p.1 p.2 hbnd.1 hbnd.2 hpat

theorem spawnGlyph_recognized (c : Char) (hs : spawnGlyph c) : recognizedGlyph c := by
  unfold recognizedGlyph
  rcases hs with hc | hc | hc | hc | hc
  · exact Or.inr (Or.inr (Or.inr (Or.inr (Or.inl hc))))
  · exact Or.inr (Or.inr (Or.inr (Or.inr (Or.inr (Or.inl hc)))))
  · exact Or.inr (Or.inr (Or.inr (Or.inr (Or.inr (Or.inr (Or.inl hc))))))
  · exact Or.inr (Or.inr (Or.inr (Or.inr (Or.inr (Or.inr (Or.inr (Or.inl hc)))))))
  · exact Or.inr (Or.inr (Or.inr (Or.inr (Or.inr (Or.inr (Or.inr (Or.inr hc)))))))

theorem glyphTile_unrecognized (c : Char) (prev : TileType)
    (hur : ¬ recognizedGlyph c) : glyphTile c prev = prev := by
  unfold glyphTile
  split_ifs <;> first | rfl | (subst_vars; exact absurd (by decide) hur)

theorem glyphTile_downstairs (c : Char) (prev : TileType)
    (hprev : prev ≠ TileType.DownStairs) :
    (glyphTile c prev = TileType.DownStairs ↔ c = '>') := by
  unfold glyphTile
  split_ifs <;>
    first
      | (subst_vars; decide)
      | exact iff_of_false hprev (by assumption)

/-- Claim C8: a template cell whose glyph is not in the recognized set
(space, #, @, >, g, o, ^, %, !) is a no-op with a logged warning: the map
tile at that cell keeps its prior value, no spawn-list entry is added for
that cell, and the warning message is logged. -/
theorem c8_unrecognized_glyph (L : XpLayer) (d w h : Int) (x y : Nat)
    (hxL : x < L.width) (hyL : y < L.height)
    (hxw : (x : Int) < w) (hyh : (y : Int) < h)
    (hur : ¬ recognizedGlyph (L.ch x y)) :
    (load_rex_map (prefabInitial d w h) ⟨[L]⟩).map.getTile x y
        = (prefabInitial d w h).map.getTile x y
    ∧ (∀ e ∈ (load_rex_map (prefabInitial d w h) ⟨[L]⟩).spawns,
        e.1 ≠ ((y : Int) * w + (x : Int)).toNat)
    ∧ ("Unknown glyph loading map: " ++ (L.ch x y).toString)
        ∈ (load_rex_map (prefabInitial d w h) ⟨[L]⟩).log := by
  have hload : load_rex_map (prefabInitial d w h) ⟨[L]⟩
      = loadLayer (prefabInitial d w h) L := rfl
  refine ⟨?_, ?_, ?_⟩
  · rw [hload, loadLayer_getTile L (prefabInitial d w h) w h rfl rfl
      (wf_mkNew d w h) x y hxw hyh, if_pos ⟨hxL, hyL⟩,
      glyphTile_unrecognized _ _ hur]
  · intro e he hidx
    rw [hload] at he
    rcases loadCells_spawns_mem L w h (layerCells L) (prefabInitial d w h)
        rfl rfl e he with hin | hfrom
    · exact absurd hin (List.not_mem_nil e)
    · obtain ⟨p, _, hpw, hph, hsg, hpe⟩ := hfrom
      rw [hpe] at hidx
      have hco := @xy_idx_inj w (p.1 : Int) (p.2 : Int) (x : Int) (y : Int)
        (by positivity) hpw (by positivity) hxw (by positivity) (by positivity) hidx
      have h1 : p.1 = x := by exact_mod_cast hco.1
      have h2 : p.2 = y := by exact_mod_cast hco.2
      rw [h1, h2] at hsg
      exact hur (spawnGlyph_recognized _ hsg)
  · rw [hload]
    exact loadCells_log_warn L x y w h (layerCells L) (prefabInitial d w h)
      rfl rfl (mem_layerCells.mpr ⟨hxL, hyL⟩) hxw hyh hur

/-- Claim C8 witness: a concrete template whose single cell glyph is `?`. -/
theorem c8_unrecognized_glyph_witness :
    ("Unknown glyph loading map: " ++ Char.toString (Char.ofNat 63))
      ∈ (load_rex_map (prefabInitial 1 3 3)
          ⟨[⟨1, 1, fun _ _ => Char.ofNat 63⟩]⟩).log :=
  (c8_unrecognized_glyph ⟨1, 1, fun _ _ => Char.ofNat 63⟩ 1 3 3 0 0
    (by decide) (by decide) (by decide) (by decide) (by decide)).2.2

/-- Claim C3 (amended): for every template that fits inside the map and
contains exactly one `@` glyph — at a column other than 0 — and exactly one
`>` glyph, the builder's starting position equals the `@` coordinate, the
fallback never runs, and the final map's DownStairs tiles are exactly the
one at the `>` coordinate. -/
theorem c3_prefab_glyphs (L : XpLayer) (d w h : Int)
    (hLw : (L.width : Int) ≤ w) (hLh : (L.height : Int) ≤ h)
    (ax ay gx gy : Nat)
    (haxL : ax < L.width) (hayL : ay < L.height)
    (hgxL : gx < L.width) (hgyL : gy < L.height)
    (hat : L.ch ax ay = '@') (haxnz : ax ≠ 0)
    (hatu : ∀ x y, x < L.width → y < L.height → L.ch x y = '@' → (x, y) = (ax, ay))
    (hgt : L.ch gx gy = '>')
    (hgtu : ∀ x y, x < L.width → y < L.height → L.ch x y = '>' → (x, y) = (gx, gy)) :
    prefabBuild ⟨[L]⟩ d w h = some (load_rex_map (prefabInitial d w h) ⟨[L]⟩)
    ∧ (load_rex_map (prefabInitial d w h) ⟨[L]⟩).startingPosition
        = ⟨(ax : Int), (ay : Int)⟩
    ∧ (∀ x y : Nat, (x : Int) < w → (y : Int) < h →
        ((load_rex_map (prefabInitial d w h) ⟨[L]⟩).map.getTile x y
            = TileType.DownStairs ↔ (x, y) = (gx, gy))) := by
  have hload : load_rex_map (prefabInitial d w h) ⟨[L]⟩
      = loadLayer (prefabInitial d w h) L := rfl
  have haxw : (ax : Int) < w := by
    have : (ax : Int) < (L.width : Int) := by exact_mod_cast haxL
    omega
  have hayh : (ay : Int) < h := by
    have : (ay : Int) < (L.height : Int) := by exact_mod_cast hayL
    omega
  have hstart : (load_rex_map (prefabInitial d w h) ⟨[L]⟩).startingPosition
      = ⟨(ax : Int), (ay : Int)⟩ := by
    rw [hload]
    exact loadLayer_start_at L (prefabInitial d w h) w h rfl rfl ax ay
      haxL hayL haxw hayh hat hatu
  refine ⟨?_, hstart, ?_⟩
  · unfold prefabBuild
    rw [hstart]
    exact if_neg (by show ¬((ax : Int) = 0); omega)
  · intro x y hxw hyh
    rw [hload, loadLayer_getTile L (prefabInitial d w h) w h rfl rfl
      (wf_mkNew d w h) x y hxw hyh]
    by_cases hinL : x < L.width ∧ y < L.height
    · rw [if_pos hinL]
      have hprev : (prefabInitial d w h).map.getTile x y = TileType.Wall :=
        getTile_mkNew d w h x y
      rw [hprev]
      rw [glyphTile_downstairs (L.ch x y) TileType.Wall (by decide)]
      constructor
      · intro hch
        exact hgtu x y hinL.1 hinL.2 hch
      · intro hxy
        rw [Prod.mk.injEq] at hxy
        rw [hxy.1, hxy.2]
        exact hgt
    · rw [if_neg hinL]
      have hprev : (prefabInitial d w h).map.getTile x y = TileType.Wall :=
        getTile_mkNew d w h x y
      rw [hprev]
      refine iff_of_false (by decide) ?_
      intro hxy
      rw [Prod.mk.injEq] at hxy
      exact hinL ⟨hxy.1 ▸ hgxL, hxy.2 ▸ hgyL⟩

/-- A concrete 3×3 template: one `@` at (1,1) (column ≠ 0), one `>` at
(0,2), walls elsewhere. -/
def demoAtOne : XpLayer :=
  { width := 3, height := 3,
    ch := fun x y =>
      if x = 1 ∧ y = 1 then '@'
      else if x = 0 ∧ y = 2 then '>'
      else '#' }

theorem demoAtOne_at_unique :
    ∀ x y, x < demoAtOne.width → y < demoAtOne.height →
      demoAtOne.ch x y = '@' → (x, y) = (1, 1) := by
  have hd : ∀ x2, x2 < 3 → ∀ y2, y2 < 3 →
      demoAtOne.ch x2 y2 = '@' → (x2, y2) = (1, 1) := by decide
  intro x y hx hy
  exact hd x hx y hy

theorem demoAtOne_gt_unique :
    ∀ x y, x < demoAtOne.width → y < demoAtOne.height →
      demoAtOne.ch x y = '>' → (x, y) = (0, 2) := by
  have hd : ∀ x2, x2 < 3 → ∀ y2, y2 < 3 →
      demoAtOne.ch x2 y2 = '>' → (x2, y2) = (0, 2) := by decide
  intro x y hx hy
  exact hd x hx y hy

/-- Claim C3 witness: the amended theorem applied to the concrete template. -/
theorem c3_prefab_glyphs_witness :
    (load_rex_map (prefabInitial 1 3 3) ⟨[demoAtOne]⟩).startingPosition
        = (⟨1, 1⟩ : Position)
    ∧ (load_rex_map (prefabInitial 1 3 3) ⟨[demoAtOne]⟩).map.getTile 0 2
        = TileType.DownStairs := by
  obtain ⟨hbuild, hstart, htiles⟩ := c3_prefab_glyphs demoAtOne 1 3 3
    (by decide) (by decide) 1 1 0 2 (by decide) (by decide) (by decide) (by decide)
    (by decide) (by decide) demoAtOne_at_unique (by decide) demoAtOne_gt_unique
  exact ⟨hstart, (htiles 0 2 (by decide) (by decide)).mpr rfl⟩

/-- A concrete 5×4 template whose single `@` sits at column 0 (coordinate
(0,1)) and whose single `>` sits at (3,2); the row y = 1 is otherwise open
floor and y = 2 has floor at x = 1,2. -/
def demoColZero : XpLayer :=
  { width := 5, height := 4,
    ch := fun x y =>
      if y = 1 then (if x = 0 then '@' else if x = 4 then '#' else ' ')
      else if y = 2 then (if x = 3 then '>' else if x = 1 ∨ x = 2 then ' ' else '#')
      else '#' }

/-- Claim C3 counterexample: the template `demoColZero` has exactly one `@`
(at (0,1)) and exactly one `>` (at (3,2)), yet the built starting position is
not the `@` coordinate — the column-0 sentinel makes the builder overwrite
it. -/
theorem c3_counterexample :
    ¬ ((match prefabBuild ⟨[demoColZero]⟩ 1 5 4 with
        | some st => st.startingPosition
        | none => ⟨-1, -1⟩) = (⟨0, 1⟩ : Position)) := by
  decide

/-- Claim C9: the prefab builder treats starting_position.x == 0 as "unset":
when the loaded template leaves the x-coordinate nonzero the build returns
the loaded state unchanged (no fallback start search, no extra stairs), and
on the concrete template with `@` at column 0 the fallback runs — the
starting position is overwritten to (2,2) and a second DownStairs appears at
(0,1) besides the template's own at (3,2). -/
theorem c9_zero_column_sentinel :
    (∀ (file : XpFile) (d w h : Int),
        (load_rex_map (prefabInitial d w h) file).startingPosition.x ≠ 0 →
        prefabBuild file d w h = some (load_rex_map (prefabInitial d w h) file))
    ∧ (match prefabBuild ⟨[demoColZero]⟩ 1 5 4 with
        | some st => st.startingPosition
        | none => ⟨-1, -1⟩) = (⟨2, 2⟩ : Position)
    ∧ (match prefabBuild ⟨[demoColZero]⟩ 1 5 4 with
        | some st => st.map.getTile 0 1
        | none => TileType.Wall) = TileType.DownStairs
    ∧ (match prefabBuild ⟨[demoColZero]⟩ 1 5 4 with
        | some st => st.map.getTile 3 2
        | none => TileType.Wall) = TileType.DownStairs := by
  refine ⟨?_, by decide, by decide, by decide⟩
  intro file d w h hne
  unfold prefabBuild
  rw [if_neg hne]

/-- Claim C9 witness: the suppression half applied to a template whose `@`
is at column 1. -/
theorem c9_zero_column_sentinel_witness :
    prefabBuild ⟨[demoAtOne]⟩ 1 3 3
      = some (load_rex_map (prefabInitial 1 3 3) ⟨[demoAtOne]⟩) :=
  c9_zero_column_sentinel.1 ⟨[demoAtOne]⟩ 1 3 3 (by decide)

/-! ## Wave Function Collapse builder (src/map_builders/waveform_collapse/mod.rs)

The phase-2 loop of `WaveformCollapseBuilder::build` is in the sources:

    self.map = Map::new(self.depth);
    loop {
        let mut solver = Solver::new(constraints.clone(), CHUNK_SIZE, &self.map);
        while !solver.iteration(&mut self.map, &mut rng) { ... }
        if solver.possible { break; } // If it has hit an impossible condition, try again.
    }

The solver internals (waveform_collapse/solver.rs) are not among the
sources, so they are modelled from the spec below. -/

/-- Modelled from the spec: §3 MapChunk (waveform_collapse internals are not
among the sources) — an N×N tile pattern, four directional
compatibility-pattern-index lists (north, south, east, west) and an
occurrence count used as a stochastic weight. -/
structure MapChunk where
  pattern : List TileType
  compatibleWith : List (List Nat)
  weight : Nat
deriving DecidableEq, Repr

def defaultChunk : MapChunk := ⟨[], [], 1⟩

/-- Modelled from the spec: §3 SolverState — a chunk-resolution grid where
each cell holds the set of still-possible pattern indices; a `collapsed`
mark per cell; the `possible` flag communicates "this attempt is dead"
distinctly from "solve complete". -/
structure Solver where
  chunksX : Nat
  chunksY : Nat
  cells : List (List Nat)
  collapsed : List Bool
  possible : Bool
deriving DecidableEq, Repr

/-- Modelled from the spec: §4.6 phase 2 — "initialize a chunk-resolution
grid where every cell's possible-pattern set is the full pattern list";
nothing is collapsed and the attempt starts possible. -/
def Solver.new (constraints : List MapChunk) (chunkSize : Int) (m : Map) : Solver :=
  { chunksX := (m.width / chunkSize).toNat,
    chunksY := (m.height / chunkSize).toNat,
    cells := List.replicate ((m.width / chunkSize).toNat * (m.height / chunkSize).toNat)
      (List.range constraints.length),
    collapsed := List.replicate ((m.width / chunkSize).toNat * (m.height / chunkSize).toNat)
      false,
    possible := true }

/-- Modelled from the spec: "pick the cell with the fewest remaining possible
patterns (break ties by scan order)" among the not-yet-collapsed cells;
`none` when every cell is collapsed. -/
def pickCell (s : Solver) : Option Nat :=
  (List.range s.cells.length).foldl (fun acc i =>
    if s.collapsed.getD i true then acc
    else match acc with
      | none => some i
      | some j =>
          if (s.cells.getD i []).length < (s.cells.getD j []).length
          then some i else acc) none

/-- Modelled from the spec: choose a pattern "at random, weighted by
occurrence count" — walk the cumulative weights with the roll. -/
def weightedPickGo (wOf : Nat → Nat) : List Nat → Nat → Nat
  | [], _ => 0
  | [p], _ => p
  | p :: q :: rest, r =>
      if r < wOf p then p else weightedPickGo wOf (q :: rest) (r - wOf p)

def weightedPick (constraints : List MapChunk) (options : List Nat) (roll : Nat) : Nat :=
  let wOf := fun p => (constraints.getD p defaultChunk).weight
  weightedPickGo wOf options (roll % (max (options.map wOf).sum 1))

/-- Chunk-grid neighbours of a cell with the direction they lie in
(0 north, 1 south, 2 east, 3 west). -/
def chunkNeighbours (chunksX chunksY : Nat) (i : Nat) : List (Nat × Nat) :=
  (if chunksX ≤ i then [(i - chunksX, 0)] else [])
    ++ (if i / chunksX + 1 < chunksY then [(i + chunksX, 1)] else [])
    ++ (if i % chunksX + 1 < chunksX then [(i + 1, 2)] else [])
    ++ (if i % chunksX ≠ 0 then [(i - 1, 3)] else [])

def oppDir (d : Nat) : Nat :=
  if d = 0 then 1 else if d = 1 then 0 else if d = 2 then 3 else 2

/-- Modelled from the spec: one propagation sweep — a pattern stays possible
in a cell only if every neighbour cell still has some possible pattern
whose compatibility list (in the corresponding direction) admits it;
"propagation cascades until no possible-set changes" is modelled by
iterating the sweep. -/
def propagateStep (C : List MapChunk) (chunksX chunksY : Nat)
    (cells : List (List Nat)) : List (List Nat) :=
  cells.mapIdx (fun i opts =>
    opts.filter (fun p =>
      (chunkNeighbours chunksX chunksY i).all (fun jd =>
        (cells.getD jd.1 []).any (fun q =>
          p ∈ (C.getD q defaultChunk).compatibleWith.getD (oppDir jd.2) []))))

def propagate (C : List MapChunk) (chunksX chunksY : Nat) :
    Nat → List (List Nat) → List (List Nat)
  | 0, cells => cells
  | fuel + 1, cells => propagate C chunksX chunksY fuel (propagateStep C chunksX chunksY cells)

/-- The tile writes of rendering a pattern into a chunk cell (row-major
within the chunk window). -/
def chunkWrites (chunkSize : Int) (chunksX : Nat) (pat : List TileType)
    (cell : Nat) (w : Int) : List (Nat × TileType) :=
  (List.range (chunkSize.toNat * chunkSize.toNat)).map (fun j =>
    (((cell / chunksX) * chunkSize.toNat + j / chunkSize.toNat) * w.toNat
        + ((cell % chunksX) * chunkSize.toNat + j % chunkSize.toNat),
     pat.getD j TileType.Wall))

def applyWrites (ws : List (Nat × TileType)) (m : Map) : Map :=
  ws.foldl (fun mm wt => mm.setIdx wt.1 wt.2) m

/-- Modelled from the spec: one solver iteration — "one cell resolved or one
contradiction detected per call"; the returned flag is the done flag of
`solver.iteration` (true when the attempt concluded, by completion or by
contradiction).  The solver's choices read only the solver state and the
rng, never the map; the map receives the rendering writes. -/
def Solver.iterationCore (C : List MapChunk) (chunkSize w : Int) (pfuel : Nat)
    (s : Solver) (rolls : Nat → Nat) (k : Nat) :
    Solver × List (Nat × TileType) × Nat × Bool :=
  match pickCell s with
  | none => (s, [], k, true)
  | some i =>
      let opts := s.cells.getD i []
      if opts.length = 0 then
        ({ s with possible := false }, [], k, true)
      else if opts.length = 1 then
        ({ s with collapsed := s.collapsed.set i true },
          chunkWrites chunkSize s.chunksX
            (C.getD (opts.getD 0 0) defaultChunk).pattern i w,
          k, false)
      else
        let p := weightedPick C opts (rolls k)
        let cells2 := propagate C s.chunksX s.chunksY pfuel (s.cells.set i [p])
        ({ s with cells := cells2 }, [], k + 1, false)

def Solver.iteration (C : List MapChunk) (chunkSize : Int) (pfuel : Nat)
    (s : Solver) (m : Map) (rolls : Nat → Nat) (k : Nat) :
    Solver × Map × Nat × Bool :=
  match Solver.iterationCore C chunkSize m.width pfuel s rolls k with
  | (s2, ws, k2, done) => (s2, applyWrites ws m, k2, done)

/-- The inner `while !solver.iteration(&mut self.map, &mut rng) {}` loop of
one solve attempt; the final flag records whether the attempt concluded
(fuel exhaustion models non-termination and is reported as not-done). -/
def runAttempt (C : List MapChunk) (chunkSize : Int) (pfuel : Nat) :
    Nat → Solver → Map → (Nat → Nat) → Nat → Solver × Map × Nat × Bool
  | 0, s, m, _, k => (s, m, k, false)
  | fuel + 1, s, m, rolls, k =>
      match Solver.iteration C chunkSize pfuel s m rolls k with
      | (s2, m2, k2, done) =>
          if done then (s2, m2, k2, true)
          else runAttempt C chunkSize pfuel fuel s2 m2 rolls k2

/-- The phase-2 retry loop of `WaveformCollapseBuilder::build`: each attempt
constructs a fresh `Solver::new`, iterates it to its conclusion, and the loop
exits only when `solver.possible` holds — otherwise it tries again with the
rng (and map buffer) carried forward. -/
def wfcLoop (C : List MapChunk) (chunkSize : Int) (pfuel ifuel : Nat) :
    Nat → Map → (Nat → Nat) → Nat → Option (Map × Nat)
  | 0, _, _, _ => none
  | tries + 1, m, rolls, k =>
      match runAttempt C chunkSize pfuel ifuel (Solver.new C chunkSize m) m rolls k with
      | (s2, m2, k2, done) =>
          if done then
            (if s2.possible then some (m2, k2)
             else wfcLoop C chunkSize pfuel ifuel tries m2 rolls k2)
          else none

/-- Phase 2 entry: `self.map = Map::new(self.depth)` then the retry loop. -/
def wfcPhase2 (C : List MapChunk) (chunkSize : Int) (pfuel ifuel tries : Nat)
    (d w h : Int) (rolls : Nat → Nat) : Option (Map × Nat) :=
  wfcLoop C chunkSize pfuel ifuel tries (Map.mkNew d w h) rolls 0

/-- Claim C1: the phase-2 retry loop never surfaces a contradiction — a map
is produced only by an attempt that ran to completion with `possible` still
true; a contradiction (done with `possible = false`) makes the loop restart
phase 2 with a brand new `Solver::new`, carrying no solver state over; and
the fresh solver really is from scratch — every cell's possible-pattern set
is the full pattern list, no cell is collapsed, and `possible` is reset. -/
theorem c1_wfc_contradiction_restart (C : List MapChunk) (csz : Int)
    (pfuel ifuel : Nat) (rolls : Nat → Nat) :
    (∀ (tries : Nat) (m : Map) (k : Nat) (out : Map × Nat),
      wfcLoop C csz pfuel ifuel tries m rolls k = some out →
      ∃ (mIn : Map) (kIn : Nat),
        (runAttempt C csz pfuel ifuel (Solver.new C csz mIn) mIn rolls kIn).1.possible = true
        ∧ (runAttempt C csz pfuel ifuel (Solver.new C csz mIn) mIn rolls kIn).2.2.2 = true
        ∧ (runAttempt C csz pfuel ifuel (Solver.new C csz mIn) mIn rolls kIn).2.1 = out.1)
    ∧ (∀ (tries : Nat) (m : Map) (k : Nat),
        (runAttempt C csz pfuel ifuel (Solver.new C csz m) m rolls k).2.2.2 = true →
        (runAttempt C csz pfuel ifuel (Solver.new C csz m) m rolls k).1.possible = false →
        wfcLoop C csz pfuel ifuel (tries + 1) m rolls k
          = wfcLoop C csz pfuel ifuel tries
              (runAttempt C csz pfuel ifuel (Solver.new C csz m) m rolls k).2.1 rolls
              (runAttempt C csz pfuel ifuel (Solver.new C csz m) m rolls k).2.2.1)
    ∧ (∀ (m : Map),
        (Solver.new C csz m).possible = true
        ∧ (∀ i, i < (Solver.new C csz m).cells.length →
            (Solver.new C csz m).cells.getD i [] = List.range C.length)
        ∧ (∀ i, i < (Solver.new C csz m).collapsed.length →
            (Solver.new C csz m).collapsed.getD i true = false)) := by
  refine ⟨?_, ?_, ?_⟩
  · intro tries
    induction tries with
    | zero =>
        intro m k out hout
        exact absurd hout (by rw [wfcLoop]; exact Option.noConfusion)
    | succ tries ih =>
        intro m k out hout
        rw [wfcLoop] at hout
        rcases hrun : runAttempt C csz pfuel ifuel (Solver.new C csz m) m rolls k with
          ⟨s2, m2, k2, done⟩
        rw [hrun] at hout
        cases done with
        | false => exact absurd hout (by simp)
        | true =>
            simp only [if_true] at hout
            by_cases hposs : s2.possible
            · rw [if_pos hposs] at hout
              refine ⟨m, k, ?_, ?_, ?_⟩
              · rw [hrun]; exact hposs
              · rw [hrun]
              · rw [hrun]
                have : (m2, k2) = out := Option.some.inj hout
                rw [← this]
            · rw [if_neg hposs] at hout
              exact ih m2 k2 out hout
  · intro tries m k hdone hposs
    rw [wfcLoop]
    rcases hrun : runAttempt C csz pfuel ifuel (Solver.new C csz m) m rolls k with
      ⟨s2, m2, k2, done⟩
    rw [hrun] at hdone hposs
    change done = true at hdone
    change s2.possible = false at hposs
    subst hdone
    show (if s2.possible = true then some (m2, k2)
          else wfcLoop C csz pfuel ifuel tries m2 rolls k2)
        = wfcLoop C csz pfuel ifuel tries m2 rolls k2
    rw [hposs]
    simp
  · intro m
    refine ⟨rfl, ?_, ?_⟩
    · intro i hi
      change i < (List.replicate ((m.width / csz).toNat * (m.height / csz).toNat)
        (List.range C.length)).length at hi
      rw [List.length_replicate] at hi
      show (List.replicate ((m.width / csz).toNat * (m.height / csz).toNat)
        (List.range C.length)).getD i [] = List.range C.length
      rw [List.getD_eq_getElem?_getD, List.getElem?_replicate, if_pos hi]
      rfl
    · intro i hi
      change i < (List.replicate ((m.width / csz).toNat * (m.height / csz).toNat)
        false).length at hi
      rw [List.length_replicate] at hi
      show (List.replicate ((m.width / csz).toNat * (m.height / csz).toNat)
        false).getD i true = false
      rw [List.getD_eq_getElem?_getD, List.getElem?_replicate, if_pos hi]
      rfl

/-- Claim C1 witness: with an empty pattern list a 1×1 chunk grid hits a
contradiction at once, and the loop equation shows the restart with the
fresh solver. -/
theorem c1_wfc_contradiction_restart_witness :
    wfcLoop ([] : List MapChunk) 1 2 3 1 (Map.mkNew 1 1 1) (fun _ => 1) 0
      = wfcLoop ([] : List MapChunk) 1 2 3 0
          (runAttempt [] 1 2 3 (Solver.new [] 1 (Map.mkNew 1 1 1))
            (Map.mkNew 1 1 1) (fun _ => 1) 0).2.1
          (fun _ => 1)
          (runAttempt [] 1 2 3 (Solver.new [] 1 (Map.mkNew 1 1 1))
            (Map.mkNew 1 1 1) (fun _ => 1) 0).2.2.1 :=
  (c1_wfc_contradiction_restart [] 1 2 3 (fun _ => 1)).2.1 0 (Map.mkNew 1 1 1) 0
    (by decide) (by decide)

end Rogue
